import Mathlib

/-! # Changelog entry checker (`.github/changelog/check-changelog-entry-file/main.go`)

A shallow embedding of the Go program and proofs about it.

Modelling conventions.

* A Go `string` is modelled as a list of Unicode scalar values (`List Char`), that is, as valid
  UTF-8 text; positions returned by `strings.Index` count code points.  `HasPrefix`,
  `HasSuffix`, `Index`, `Contains` and slicing at a position returned by `Index` select the same
  text whether positions count bytes or code points.
* A Go `error` is `Option Str`: `none` is `nil`, `some m` is an error whose `Error()` text is `m`.
* A slice expression that is out of range panics; functions that slice return `Except Panic`.
* `log.Fatal`/`log.Fatalf` end the process with status 1; the logger's timestamp prefix and the
  final newline it adds are not part of the modelled message.
* `changelog.NotesFromEntry` belongs to an external library and is a parameter of `main`.
-/

namespace ChangelogCheck

/-- Go `string`. -/
abbrev Str := List Char

/-- Go `error`: `none` is `nil`. -/
abbrev GoError := Option Str

/-- Run-time panics the modelled code could raise. -/
inductive Panic where
  | sliceBounds
  deriving DecidableEq, Repr

deriving instance DecidableEq for Except

/-! ## The `strings` package -/

/-- Function `strings.HasPrefix(s, pre)`. -/
def hasPrefix (s pre : Str) : Bool := pre.isPrefixOf s

/-- Function `strings.HasSuffix(s, suf)`. -/
def hasSuffix (s suf : Str) : Bool := suf.isSuffixOf s

/-- Scan of `strings.Index`: `n` is the position of the head of the text still to scan. -/
def indexFrom (sub : Str) : Str → Nat → Int
  | [], n => if hasPrefix [] sub then (n : Int) else -1
  | c :: cs, n => if hasPrefix (c :: cs) sub then (n : Int) else indexFrom sub cs (n + 1)

/-- Function `strings.Index(s, sub)`: position of the first occurrence of `sub` in `s`, or `-1`. -/
def index (s sub : Str) : Int := indexFrom sub s 0

/-- Function `strings.Contains(s, sub)`. -/
def contains (s sub : Str) : Bool := decide (0 ≤ index s sub)

/-- Function `unicode.IsSpace`. -/
def isSpace (c : Char) : Bool :=
  let n := c.toNat
  (0x09 ≤ n && n ≤ 0x0D) || n == 0x20 || n == 0x85 || n == 0xA0 || n == 0x1680 ||
  (0x2000 ≤ n && n ≤ 0x200A) || n == 0x2028 || n == 0x2029 || n == 0x202F || n == 0x205F ||
  n == 0x3000

/-- Function `strings.TrimSpace(s)`: `s` without its leading and trailing white space. -/
def trimSpace (s : Str) : Str := ((s.dropWhile isSpace).reverse.dropWhile isSpace).reverse

/-- Function `strings.Join(elems, sep)`. -/
def join : List Str → Str → Str
  | [], _ => []
  | [a], _ => a
  | a :: b :: rest, sep => a ++ sep ++ join (b :: rest) sep

/-- Function `strings.Split(s, "\n")`: `cur` is the piece being read, in reverse. -/
def splitLinesAux : Str → Str → List Str
  | [], cur => [cur.reverse]
  | c :: cs, cur => if c = '\n' then cur.reverse :: splitLinesAux cs [] else splitLinesAux cs (c :: cur)

/-- Function `strings.Split(s, "\n")`. -/
def splitLines (s : Str) : List Str := splitLinesAux s []

/-- Slice expression `s[i:]`; it panics unless `0 ≤ i ≤ len(s)`. -/
def sliceFrom (s : Str) (i : Int) : Except Panic Str :=
  if 0 ≤ i ∧ i ≤ (s.length : Int) then .ok (s.drop i.toNat) else .error .sliceBounds

/-! ## The `fmt` package -/

/-- Verb `%d` on a non-negative integer. -/
def fmtInt (n : Nat) : Str := Nat.toDigits 10 n

/-- Verb `%v` on a `[]string`: the elements separated by blanks, in square brackets. -/
def fmtStrings (xs : List Str) : Str := "[".toList ++ join xs " ".toList ++ "]".toList

/-! ## The `regexp` package, as far as the program uses it -/

/-- Regular expressions over characters; `cls p` matches one character satisfying `p`. -/
inductive Regex where
  | empty : Regex
  | eps : Regex
  | cls : (Char → Bool) → Regex
  | cat : Regex → Regex → Regex
  | alt : Regex → Regex → Regex
  | star : Regex → Regex

namespace Regex

/-- One or more repetitions, `r+`. -/
def plus (r : Regex) : Regex := cat r (star r)

/-- The literal text `s`; this is what `regexp.QuoteMeta(s)` compiles to. -/
def lit : Str → Regex
  | [] => eps
  | c :: cs => cat (cls (fun d => d == c)) (lit cs)

/-- Whether `r` matches the empty text. -/
def nullable : Regex → Bool
  | empty => false
  | eps => true
  | cls _ => false
  | cat a b => nullable a && nullable b
  | alt a b => nullable a || nullable b
  | star _ => true

/-- Brzozowski derivative of `r` by the character `c`. -/
def deriv : Regex → Char → Regex
  | empty, _ => empty
  | eps, _ => empty
  | cls p, c => if p c then eps else empty
  | cat a b, c => if nullable a then alt (cat (deriv a c) b) (deriv b c) else cat (deriv a c) b
  | alt a b, c => alt (deriv a c) (deriv b c)
  | star a, c => cat (deriv a c) (star a)

/-- Whether `r` matches the whole of `s`. -/
def fullMatch : Regex → Str → Bool
  | r, [] => nullable r
  | r, c :: cs => fullMatch (deriv r c) cs

end Regex

/-- Perl class `\w`, which in Go is ASCII only: `[0-9A-Za-z_]`. -/
def isWordChar (c : Char) : Bool :=
  let n := c.toNat
  (0x30 ≤ n && n ≤ 0x39) || (0x41 ≤ n && n ≤ 0x5A) || (0x61 ≤ n && n ≤ 0x7A) || n == 0x5F

/-- What `.` matches without the `s` flag: any character but the line feed. -/
def isDotChar (c : Char) : Bool := c != '\n'

/-- The expression built at line 55 between `^` and `$`:
`regexp.QuoteMeta(prefix) + "\w+: .+"`. -/
def namespacedPattern (pre : Str) : Regex :=
  .cat (.lit pre) (.cat (.plus (.cls isWordChar)) (.cat (.lit ": ".toList) (.plus (.cls isDotChar))))

/-- Line 55: `regexp.MustCompile("^" + QuoteMeta(prefix) + "\w+: .+$").MatchString(content)`.
Without the `m` flag `^` and `$` match only at the two ends of the text, so the search succeeds
exactly when the expression between them matches the whole of `content`. -/
def matchNamespaced (pre content : Str) : Bool := (namespacedPattern pre).fullMatch content

/-! ## `validateFormat` -/

/-- Error of line 56. -/
def errNamespaced (pre : Str) : Str :=
  "entry with prefix '".toList ++ pre ++ "' must have format '".toList ++ pre ++
    "<word>: <sentence>'".toList

/-- Error of line 71. -/
def errFormat (allowedPrefixes : List Str) : Str :=
  "entry must follow format '<prefix>: <sentence>' where prefix is one of: ".toList ++
    fmtStrings allowedPrefixes

/-- Error of line 74. -/
def errSingleLine : Str := "sentence must be single line".toList

/-- Error of line 77. -/
def errWhitespace : Str := "sentence must not have leading or trailing whitespace".toList

/-- Error of line 80. -/
def errPeriod : Str := "sentence must not end with a period".toList

/-- The loop of lines 52-65 over the prefixes still to visit.  `.error m` is the `return` of
line 56; `.ok i` is the value of `colonIdx` when the loop is left (by `break` or at its end). -/
def findColonIdx (content : Str) : List Str → Except Str Int
  | [] => .ok (-1)
  | pre :: rest =>
    if hasSuffix pre "/".toList then
      if hasPrefix content pre then
        if !matchNamespaced pre content then .error (errNamespaced pre)
        else .ok (index content ": ".toList)
      else findColonIdx content rest
    else if hasPrefix content (pre ++ ":".toList) then .ok (index content ": ".toList)
    else findColonIdx content rest

/-- Lines 66-69: the sentence for a given `colonIdx`. -/
def sentenceAt (content : Str) (colonIdx : Int) : Except Panic Str :=
  if colonIdx ≠ -1 then sliceFrom content (colonIdx + 2) else .ok []

/-- Lines 70-82: the checks on the sentence. -/
def checkSentence (allowedPrefixes : List Str) (sentence : Str) : GoError :=
  if sentence = [] then some (errFormat allowedPrefixes)
  else if contains sentence "\n".toList then some errSingleLine
  else if sentence ≠ trimSpace sentence then some errWhitespace
  else if hasSuffix sentence ".".toList then some errPeriod
  else none

/-- Function `validateFormat` (lines 50-83), with the global `allowedPrefixes` as a parameter. -/
def validateFormat (allowedPrefixes : List Str) (content : Str) : Except Panic GoError :=
  match findColonIdx content allowedPrefixes with
  | .error m => .ok (some m)
  | .ok colonIdx =>
    match sentenceAt content colonIdx with
    | .error p => .error p
    | .ok sentence => .ok (checkSentence allowedPrefixes sentence)

/-! ## `loadLines` and `main` -/

/-- Result of `os.ReadFile`: the content, or an error with its text and whether
`os.IsNotExist` holds of it. -/
inductive ReadResult where
  | data (content : Str)
  | failure (notExist : Bool) (text : Str)

/-- How a run of the process ends. -/
inductive Outcome where
  | done (stdout : Str)
  | fatal (message : Str)
  | panicked (p : Panic)
  deriving DecidableEq

/-- A `changelog.Note`, with the two fields the program reads. -/
structure Note where
  type : Str
  body : Str
  deriving DecidableEq

/-- The loop of lines 91-95 over the pieces still to visit; `lines` is the slice built so far. -/
def loadLinesLoop : List Str → List Str → List Str
  | [], lines => lines
  | line :: rest, lines =>
    let line := trimSpace line
    if line ≠ [] then loadLinesLoop rest (lines ++ [line]) else loadLinesLoop rest lines

/-- Function `loadLines` (lines 85-97); `.error m` is the `log.Fatalf` of line 88. -/
def loadLines (readFile : Str → ReadResult) (path : Str) : Except Str (List Str) :=
  match readFile path with
  | .failure _ text => .error ("Error reading ".toList ++ path ++ ": ".toList ++ text)
  | .data content => .ok (loadLinesLoop (splitLines content) [])

/-- Error appended at line 39; `i` is the loop index (from 0). -/
def errUnknownType (allowedTypes : List Str) (i : Nat) (type : Str) : Str :=
  "Entry ".toList ++ fmtInt (i + 1) ++ ": Unknown changelog type '".toList ++ type ++
    "', please use only the configured changelog entry types ".toList ++ fmtStrings allowedTypes

/-- Error appended at line 41; `i` is the loop index (from 0). -/
def errEntry (i : Nat) (err : Str) : Str := "Entry ".toList ++ fmtInt (i + 1) ++ ": ".toList ++ err

/-- The loop of lines 37-43 over the notes still to visit; `i` is the index of the first of them
and `errors` the slice built so far. -/
def checkNotes (allowedTypes allowedPrefixes : List Str) :
    Nat → List Note → List Str → Except Panic (List Str)
  | _, [], errors => .ok errors
  | i, note :: rest, errors =>
    if !allowedTypes.contains note.type then
      checkNotes allowedTypes allowedPrefixes (i + 1) rest
        (errors ++ [errUnknownType allowedTypes i note.type])
    else
      match validateFormat allowedPrefixes note.body with
      | .error p => .error p
      | .ok (some err) =>
        checkNotes allowedTypes allowedPrefixes (i + 1) rest (errors ++ [errEntry i err])
      | .ok none => checkNotes allowedTypes allowedPrefixes (i + 1) rest errors

/-- Text printed at line 26. -/
def msgNoFile (path : Str) : Str :=
  "No changelog entry file found at: ".toList ++ path ++ " (this may be expected)\n".toList

/-- Text printed at line 47. -/
def msgValid : Str := "Changelog entry is valid\n".toList

/-- Message of line 45. -/
def msgInvalid (errors : List Str) : Str :=
  "Error validating changelog:\n  - ".toList ++ join errors "\n  - ".toList

/-- Function `main` (lines 20-48).  The globals `allowedTypes` and `allowedPrefixes`, the
file system seen by `os.ReadFile`, the library function `changelog.NotesFromEntry` and
`os.Args` are parameters. -/
def main (allowedTypes allowedPrefixes : List Str) (readFile : Str → ReadResult)
    (notesFromEntry : Str → List Note) (args : List Str) : Outcome :=
  match args with
  | [] => .fatal "Usage: go run main.go <path-to-changelog-file>".toList
  | [_] => .fatal "Usage: go run main.go <path-to-changelog-file>".toList
  | _ :: path :: _ =>
    match readFile path with
    | .failure true _ => .done (msgNoFile path)
    | .failure false text => .fatal ("Error reading changelog file: ".toList ++ text)
    | .data content =>
      let notes := notesFromEntry content
      if notes.length = 0 then .fatal "Error validating changelog: no changelog entry found".toList
      else
        match checkNotes allowedTypes allowedPrefixes 0 notes [] with
        | .error p => .panicked p
        | .ok errors =>
          if errors.length > 0 then .fatal (msgInvalid errors) else .done msgValid

/-- The process: the package-level variables of lines 15-18 are initialised, then `main` runs. -/
def program (readFile : Str → ReadResult) (notesFromEntry : Str → List Note)
    (args : List Str) : Outcome :=
  match loadLines readFile "../allowed-types.txt".toList with
  | .error m => .fatal m
  | .ok allowedTypes =>
    match loadLines readFile "../allowed-prefixes.txt".toList with
    | .error m => .fatal m
    | .ok allowedPrefixes => main allowedTypes allowedPrefixes readFile notesFromEntry args

/-! ## Notions used to state the properties -/

/-- No white space at either end of `s`. -/
def NoOuterSpace (s : Str) : Prop :=
  (∀ c ∈ s.head?, isSpace c = false) ∧ (∀ c ∈ s.getLast?, isSpace c = false)

instance (s : Str) : Decidable (NoOuterSpace s) := by unfold NoOuterSpace; infer_instance

/-- A sentence as the format asks for it: not empty, on one line, without white space at either
end and not ending with a period. -/
def GoodSentence (s : Str) : Prop :=
  s ≠ [] ∧ '\n' ∉ s ∧ NoOuterSpace s ∧ s.getLast? ≠ some '.'

instance (s : Str) : Decidable (GoodSentence s) := by unfold GoodSentence; infer_instance

/-- A non-empty run of word characters. -/
def WordRun (w : Str) : Prop := w ≠ [] ∧ ∀ c ∈ w, isWordChar c = true

instance (w : Str) : Decidable (WordRun w) := by unfold WordRun; infer_instance

/-- The list entry `pre` matches the body: `pre` ends with `/` and the body starts with it, or
`pre` does not end with `/` and the body starts with `pre` and a colon. -/
def EntryMatches (pre content : Str) : Prop :=
  (pre.getLast? = some '/' ∧ pre <+: content) ∨
    (pre.getLast? ≠ some '/' ∧ pre ++ ":".toList <+: content)

instance (pre content : Str) : Decidable (EntryMatches pre content) := by
  unfold EntryMatches; infer_instance

/-- The body is `pre`, a non-empty run of word characters, `": "` and a non-empty rest without
a line feed. -/
def NamespacedShape (pre content : Str) : Prop :=
  ∃ w r : Str, content = pre ++ w ++ ": ".toList ++ r ∧ WordRun w ∧ r ≠ [] ∧ '\n' ∉ r

/-- The body starts with an allowed prefix followed by a colon and a sentence: it is
`p ++ ": " ++ s` for an allowed `p` not ending with `/`, or `p ++ w ++ ": " ++ s` for an allowed
`p` ending with `/` and a run `w` of word characters, with `s` a good sentence. -/
def PrefixedSentence (allowedPrefixes : List Str) (content : Str) : Prop :=
  ∃ p ∈ allowedPrefixes,
    (p.getLast? ≠ some '/' ∧ ∃ s : Str, content = p ++ ": ".toList ++ s ∧ GoodSentence s) ∨
    (p.getLast? = some '/' ∧
      ∃ w s : Str, content = p ++ w ++ ": ".toList ++ s ∧ WordRun w ∧ GoodSentence s)

/-- What one pass of the loop body of lines 38-42 appends for the note of index `i`, if
anything; `none` also when `validateFormat` does not return. -/
def entryError (allowedTypes allowedPrefixes : List Str) (i : Nat) (note : Note) : Option Str :=
  if !allowedTypes.contains note.type then some (errUnknownType allowedTypes i note.type)
  else
    match validateFormat allowedPrefixes note.body with
    | .ok (some err) => some (errEntry i err)
    | _ => none

/-- The errors of the notes, in order; `i` is the index of the first note. -/
def entryErrors (allowedTypes allowedPrefixes : List Str) : Nat → List Note → List Str
  | _, [] => []
  | i, note :: rest =>
    (entryError allowedTypes allowedPrefixes i note).toList ++
      entryErrors allowedTypes allowedPrefixes (i + 1) rest

/-! ## Lemmas on the `strings` functions -/

theorem hasPrefix_iff (s pre : Str) : hasPrefix s pre = true ↔ ∃ t, s = pre ++ t := by
  unfold hasPrefix
  rw [List.isPrefixOf_iff_prefix]
  constructor
  · rintro ⟨t, ht⟩; exact ⟨t, ht.symm⟩
  · rintro ⟨t, ht⟩; exact ⟨t, ht.symm⟩

theorem hasPrefix_append (pre t : Str) : hasPrefix (pre ++ t) pre = true :=
  (hasPrefix_iff _ _).2 ⟨t, rfl⟩

theorem hasSuffix_iff (s suf : Str) : hasSuffix s suf = true ↔ ∃ t, s = t ++ suf := by
  unfold hasSuffix
  rw [List.isSuffixOf_iff_suffix]
  constructor
  · rintro ⟨t, ht⟩; exact ⟨t, ht.symm⟩
  · rintro ⟨t, ht⟩; exact ⟨t, ht.symm⟩

theorem hasSuffix_singleton (s : Str) (c : Char) :
    hasSuffix s [c] = true ↔ s.getLast? = some c := by
  rw [hasSuffix_iff]
  constructor
  · rintro ⟨t, rfl⟩; simp
  · intro h
    rcases List.eq_nil_or_concat s with rfl | ⟨t, d, rfl⟩
    · simp at h
    · simp at h; subst h; exact ⟨t, by simp⟩

/-- Result of the scan: `-1`, or a position in range at which `sub` occurs. -/
theorem indexFrom_spec (sub : Str) (s : Str) (n : Nat) :
    indexFrom sub s n = -1 ∨
      ∃ k : Nat, indexFrom sub s n = ((n + k : Nat) : Int) ∧ k + sub.length ≤ s.length ∧
        hasPrefix (s.drop k) sub = true := by
  induction s generalizing n with
  | nil =>
    unfold indexFrom
    by_cases h : hasPrefix [] sub = true
    · right
      refine ⟨0, by simp [h], ?_, by simpa using h⟩
      obtain ⟨t, ht⟩ := (hasPrefix_iff _ _).1 h
      have := congrArg List.length ht
      simp at this; omega
    · left; simp [h]
  | cons c cs ih =>
    unfold indexFrom
    by_cases h : hasPrefix (c :: cs) sub = true
    · right
      refine ⟨0, by simp [h], ?_, by simpa using h⟩
      obtain ⟨t, ht⟩ := (hasPrefix_iff _ _).1 h
      have := congrArg List.length ht
      simp at this; simp; omega
    · rw [if_neg h]
      rcases ih (n + 1) with h1 | ⟨k, hk, hlen, hp⟩
      · left; exact h1
      · right
        refine ⟨k + 1, ?_, by simp; omega, by simpa using hp⟩
        rw [hk]; push_cast; ring

theorem indexFrom_of_hasPrefix (sub s : Str) (n : Nat) (h : hasPrefix s sub = true) :
    indexFrom sub s n = (n : Int) := by
  cases s <;> simp [indexFrom, h]

/-- Position found by the scan when the first occurrence of `sub` starts after `a`. -/
theorem indexFrom_first (sub a b : Str) (n : Nat)
    (hno : ∀ k, k < a.length → hasPrefix ((a ++ (sub ++ b)).drop k) sub = false) :
    indexFrom sub (a ++ (sub ++ b)) n = ((n + a.length : Nat) : Int) := by
  induction a generalizing n with
  | nil => simpa using indexFrom_of_hasPrefix sub (sub ++ b) n (hasPrefix_append _ _)
  | cons c cs ih =>
    have h0 := hno 0 (by simp)
    simp only [List.drop_zero, List.cons_append] at h0
    simp only [List.cons_append]
    unfold indexFrom
    rw [if_neg (by simp [h0])]
    rw [ih (n + 1)]
    · simp; omega
    · intro k hk
      have := hno (k + 1) (by simp; omega)
      simpa using this

theorem index_first (sub a b : Str)
    (hno : ∀ k, k < a.length → hasPrefix ((a ++ (sub ++ b)).drop k) sub = false) :
    index (a ++ (sub ++ b)) sub = (a.length : Int) := by
  unfold index
  rw [indexFrom_first sub a b 0 hno]; simp

theorem hasPrefix_two (m : Str) (x y : Char) :
    hasPrefix m [x, y] = true ↔ m[0]? = some x ∧ m[1]? = some y := by
  rw [hasPrefix_iff]
  constructor
  · rintro ⟨t, rfl⟩; simp
  · intro ⟨h0, h1⟩
    match m, h0, h1 with
    | a :: b :: t, h0, h1 =>
      simp at h0 h1; subst h0; subst h1; exact ⟨t, rfl⟩

theorem hasPrefix_drop_two (l : Str) (x y : Char) (k : Nat) :
    hasPrefix (l.drop k) [x, y] = true ↔ l[k]? = some x ∧ l[k + 1]? = some y := by
  rw [hasPrefix_two, List.getElem?_drop, List.getElem?_drop]; simp

theorem infix_two_of_getElem? (l : Str) (x y : Char) (k : Nat)
    (h0 : l[k]? = some x) (h1 : l[k + 1]? = some y) : [x, y] <:+: l := by
  have h := (hasPrefix_drop_two l x y k).2 ⟨h0, h1⟩
  obtain ⟨t, ht⟩ := (hasPrefix_iff _ _).1 h
  refine ⟨l.take k, t, ?_⟩
  rw [List.append_assoc, ← ht, List.take_append_drop]

/-- In `a ++ ": " ++ b` the first `": "` is the one written out, when `a` holds none. -/
theorem index_colon (a b : Str) (ha : ¬ ": ".toList <:+: a) :
    index (a ++ (": ".toList ++ b)) ": ".toList = (a.length : Int) := by
  apply index_first
  intro k hk
  by_contra hc
  rw [Bool.not_eq_false] at hc
  have hc2 := (hasPrefix_drop_two _ ':' ' ' k).1 hc
  obtain ⟨h0, h1⟩ := hc2
  rw [List.getElem?_append_left hk] at h0
  by_cases hk1 : k + 1 < a.length
  · rw [List.getElem?_append_left hk1] at h1
    exact ha (infix_two_of_getElem? a ':' ' ' k h0 h1)
  · have : k + 1 = a.length := by omega
    rw [List.getElem?_append_right (by omega)] at h1
    rw [this] at h1
    simp at h1

theorem not_infix_append_word (p w : Str) (hp : ¬ ": ".toList <:+: p) (hw : ' ' ∉ w) :
    ¬ ": ".toList <:+: p ++ w := by
  rintro ⟨x, y, hxy⟩
  have h0 : (p ++ w)[x.length]? = some ':' := by
    rw [← hxy, List.append_assoc, List.getElem?_append_right (le_refl _)]; simp
  have h1 : (p ++ w)[x.length + 1]? = some ' ' := by
    rw [← hxy, List.append_assoc, List.getElem?_append_right (by omega)]; simp
  by_cases hk1 : x.length + 1 < p.length
  · rw [List.getElem?_append_left hk1] at h1
    rw [List.getElem?_append_left (by omega)] at h0
    exact hp (infix_two_of_getElem? p ':' ' ' _ h0 h1)
  · rw [List.getElem?_append_right (by omega)] at h1
    exact hw (List.getElem?_mem h1)

/-! ## Lemmas on the regular-expression matcher -/

namespace Regex

theorem fullMatch_empty (s : Str) : fullMatch empty s = false := by
  induction s with
  | nil => rfl
  | cons c cs ih => simpa [fullMatch, deriv] using ih

theorem fullMatch_eps (s : Str) : fullMatch eps s = true ↔ s = [] := by
  cases s with
  | nil => simp [fullMatch, nullable]
  | cons c cs => simp [fullMatch, deriv, fullMatch_empty]

theorem fullMatch_cls (p : Char → Bool) (s : Str) :
    fullMatch (cls p) s = true ↔ ∃ c, s = [c] ∧ p c = true := by
  cases s with
  | nil => simp [fullMatch, nullable]
  | cons c cs =>
    simp only [fullMatch, deriv]
    by_cases hp : p c = true
    · rw [if_pos hp, fullMatch_eps]
      constructor
      · rintro rfl; exact ⟨c, rfl, hp⟩
      · rintro ⟨d, hd, _⟩
        simp only [List.cons.injEq] at hd
        exact hd.2
    · rw [if_neg hp, fullMatch_empty]
      constructor
      · intro h; cases h
      · rintro ⟨d, hd, hpd⟩
        simp only [List.cons.injEq] at hd
        obtain ⟨rfl, _⟩ := hd
        exact absurd hpd hp

theorem fullMatch_alt (a b : Regex) (s : Str) :
    fullMatch (alt a b) s = true ↔ fullMatch a s = true ∨ fullMatch b s = true := by
  induction s generalizing a b with
  | nil => simp [fullMatch, nullable]
  | cons c cs ih => simp only [fullMatch, deriv]; exact ih _ _

theorem fullMatch_cat (a b : Regex) (s : Str) :
    fullMatch (cat a b) s = true ↔
      ∃ t u, s = t ++ u ∧ fullMatch a t = true ∧ fullMatch b u = true := by
  induction s generalizing a with
  | nil =>
    simp only [fullMatch, nullable, Bool.and_eq_true]
    constructor
    · rintro ⟨ha, hb⟩; exact ⟨[], [], rfl, ha, hb⟩
    · rintro ⟨t, u, htu, ha, hb⟩
      obtain ⟨rfl, rfl⟩ := List.append_eq_nil.1 htu.symm
      exact ⟨ha, hb⟩
  | cons c cs ih =>
    have step : (∃ t u, cs = t ++ u ∧ fullMatch (deriv a c) t = true ∧ fullMatch b u = true) ∨
        (nullable a = true ∧ fullMatch (deriv b c) cs = true) ↔
        ∃ t u, c :: cs = t ++ u ∧ fullMatch a t = true ∧ fullMatch b u = true := by
      constructor
      · rintro (⟨t, u, htu, ha, hb⟩ | ⟨ha, hb⟩)
        · exact ⟨c :: t, u, by simp [htu], ha, hb⟩
        · exact ⟨[], c :: cs, rfl, ha, hb⟩
      · rintro ⟨t, u, htu, ha, hb⟩
        cases t with
        | nil =>
          right
          simp only [List.nil_append] at htu
          subst htu
          exact ⟨ha, hb⟩
        | cons d t =>
          left
          simp only [List.cons_append, List.cons.injEq] at htu
          obtain ⟨rfl, rfl⟩ := htu
          exact ⟨t, u, rfl, ha, hb⟩
    rw [← step]
    simp only [fullMatch, deriv]
    by_cases hn : nullable a = true
    · rw [if_pos hn, fullMatch_alt, ih]
      simp [hn]
    · rw [if_neg hn, ih]
      simp [hn]

theorem fullMatch_star_cls (p : Char → Bool) (s : Str) :
    fullMatch (star (cls p)) s = true ↔ ∀ c ∈ s, p c = true := by
  induction s with
  | nil => simp [fullMatch, nullable]
  | cons c cs ih =>
    simp only [fullMatch, deriv]
    rw [fullMatch_cat]
    by_cases hp : p c = true
    · simp only [hp, if_true, fullMatch_eps]
      constructor
      · rintro ⟨t, u, htu, rfl, hu⟩
        simp only [List.nil_append] at htu
        subst htu
        intro d hd
        rcases List.mem_cons.1 hd with rfl | hd
        · exact hp
        · exact ih.1 hu d hd
      · intro h
        exact ⟨[], cs, rfl, rfl, ih.2 (fun d hd => h d (List.mem_cons_of_mem _ hd))⟩
    · rw [if_neg hp]
      constructor
      · rintro ⟨t, u, _, h, _⟩
        rw [fullMatch_empty] at h; cases h
      · intro h; exact absurd (h c (List.mem_cons_self _ _)) hp

theorem fullMatch_plus_cls (p : Char → Bool) (s : Str) :
    fullMatch (plus (cls p)) s = true ↔ s ≠ [] ∧ ∀ c ∈ s, p c = true := by
  unfold plus
  rw [fullMatch_cat]
  constructor
  · rintro ⟨t, u, rfl, ht, hu⟩
    obtain ⟨c, rfl, hc⟩ := (fullMatch_cls p t).1 ht
    refine ⟨by simp, ?_⟩
    intro d hd
    rcases List.mem_cons.1 hd with rfl | hd
    · exact hc
    · exact (fullMatch_star_cls p u).1 hu d hd
  · rintro ⟨hne, h⟩
    cases s with
    | nil => exact absurd rfl hne
    | cons c cs =>
      exact ⟨[c], cs, rfl, (fullMatch_cls p [c]).2 ⟨c, rfl, h c (List.mem_cons_self _ _)⟩,
        (fullMatch_star_cls p cs).2 (fun d hd => h d (List.mem_cons_of_mem _ hd))⟩

theorem fullMatch_lit (l s : Str) : fullMatch (lit l) s = true ↔ s = l := by
  induction l generalizing s with
  | nil => simpa [lit] using fullMatch_eps s
  | cons c cs ih =>
    simp only [lit]
    rw [fullMatch_cat]
    constructor
    · rintro ⟨t, u, rfl, ht, hu⟩
      obtain ⟨d, rfl, hd⟩ := (fullMatch_cls _ t).1 ht
      simp only [beq_iff_eq] at hd
      subst hd
      rw [(ih u).1 hu]; rfl
    · rintro rfl
      exact ⟨[c], cs, rfl, (fullMatch_cls _ [c]).2 ⟨c, rfl, by simp⟩, (ih cs).2 rfl⟩

end Regex

theorem matchNamespaced_iff (pre content : Str) :
    matchNamespaced pre content = true ↔ NamespacedShape pre content := by
  unfold matchNamespaced namespacedPattern NamespacedShape
  simp only [Regex.fullMatch_cat, Regex.fullMatch_lit, Regex.fullMatch_plus_cls]
  constructor
  · rintro ⟨t, u, rfl, rfl, w, v, rfl, ⟨hw, hww⟩, x, r, rfl, rfl, hr, hrr⟩
    refine ⟨w, r, by simp, ⟨hw, hww⟩, hr, ?_⟩
    intro hmem
    have := hrr _ hmem
    simp [isDotChar] at this
  · rintro ⟨w, r, rfl, ⟨hw, hww⟩, hr, hrr⟩
    refine ⟨pre, w ++ ": ".toList ++ r, by simp, rfl, w, ": ".toList ++ r, by simp, ⟨hw, hww⟩,
      ": ".toList, r, rfl, rfl, hr, ?_⟩
    intro c hc
    simp only [isDotChar, bne_iff_ne, ne_eq]
    rintro rfl
    exact hrr hc


theorem indexFrom_eq_neg_one_iff (sub s : Str) (n : Nat) :
    indexFrom sub s n = -1 ↔ ¬ sub <:+: s := by
  induction s generalizing n with
  | nil =>
    unfold indexFrom hasPrefix
    by_cases h : List.isPrefixOf sub [] = true
    · rw [if_pos h]
      have h2 : sub <:+: [] := (List.isPrefixOf_iff_prefix.1 h).isInfix
      constructor
      · intro hc; omega
      · intro hc; exact absurd h2 hc
    · rw [if_neg h]
      constructor
      · intro _ hc
        apply h
        rw [List.infix_nil] at hc; subst hc; rfl
      · intro _; rfl
  | cons c cs ih =>
    unfold indexFrom hasPrefix
    rw [List.infix_cons_iff]
    by_cases h : List.isPrefixOf sub (c :: cs) = true
    · rw [if_pos h]
      constructor
      · intro hc; omega
      · intro hc; exact absurd (Or.inl (List.isPrefixOf_iff_prefix.1 h)) hc
    · rw [if_neg h, ih]
      rw [List.isPrefixOf_iff_prefix] at h
      tauto

theorem index_eq_neg_one_iff (s sub : Str) : index s sub = -1 ↔ ¬ sub <:+: s :=
  indexFrom_eq_neg_one_iff sub s 0

theorem contains_iff (s sub : Str) : contains s sub = true ↔ sub <:+: s := by
  unfold contains
  rw [decide_eq_true_iff]
  have h1 := index_eq_neg_one_iff s sub
  rcases indexFrom_spec sub s 0 with h | ⟨k, hk, _, _⟩
  · have h' : index s sub = -1 := h
    constructor
    · intro hc; omega
    · intro hc; exact absurd hc (h1.1 h')
  · have h' : index s sub = ((0 + k : Nat) : Int) := hk
    constructor
    · intro _
      by_contra hc
      have := h1.2 hc
      omega
    · intro _; omega

theorem singleton_infix_iff (c : Char) (s : Str) : [c] <:+: s ↔ c ∈ s := by
  constructor
  · rintro ⟨a, b, rfl⟩; simp
  · intro h
    obtain ⟨a, b, rfl⟩ := List.append_of_mem h
    exact ⟨a, b, by simp⟩

theorem contains_newline_iff (s : Str) : contains s "\n".toList = true ↔ '\n' ∈ s := by
  rw [contains_iff]; exact singleton_infix_iff '\n' s

theorem trimSpace_eq_self_iff (s : Str) : trimSpace s = s ↔ NoOuterSpace s := by
  have key : trimSpace s = s ↔ s.dropWhile isSpace = s ∧ s.rdropWhile isSpace = s := by
    constructor
    · intro h
      have h1 : (s.dropWhile isSpace).length ≤ s.length := (List.dropWhile_suffix _).length_le
      have h2 : (trimSpace s).length ≤ (s.dropWhile isSpace).length := by
        have : trimSpace s = (s.dropWhile isSpace).rdropWhile isSpace := rfl
        rw [this]; exact (List.rdropWhile_prefix _ _).length_le
      rw [h] at h2
      have h3 : s.dropWhile isSpace = s :=
        (List.dropWhile_suffix _).eq_of_length (by omega)
      refine ⟨h3, ?_⟩
      have : trimSpace s = (s.dropWhile isSpace).rdropWhile isSpace := rfl
      rw [h3] at this
      rw [← this]; exact h
    · rintro ⟨h1, h2⟩
      have : trimSpace s = (s.dropWhile isSpace).rdropWhile isSpace := rfl
      rw [this, h1, h2]
  rw [key, List.dropWhile_eq_self_iff, List.rdropWhile_eq_self_iff]
  unfold NoOuterSpace
  cases s with
  | nil => simp
  | cons c cs =>
    simp only [List.length_cons, Nat.zero_lt_succ, List.get_eq_getElem, List.getElem_cons_zero,
      Bool.not_eq_true, forall_true_left, ne_eq, reduceCtorEq, not_false_eq_true,
      List.head?_cons, Option.mem_def, Option.some.injEq, forall_eq']
    rw [List.getLast?_eq_getLast _ (List.cons_ne_nil c cs)]
    simp

theorem checkSentence_good (ps : List Str) (s : Str) (h : GoodSentence s) :
    checkSentence ps s = none := by
  obtain ⟨h1, h2, h3, h4⟩ := h
  unfold checkSentence
  rw [if_neg h1, if_neg (by rw [contains_newline_iff]; exact h2),
    if_neg (by rw [not_not]; exact ((trimSpace_eq_self_iff s).2 h3).symm),
    if_neg (fun (hc : hasSuffix s ".".toList = true) => h4 ((hasSuffix_singleton s '.').1 hc))]

theorem checkSentence_eq_none (ps : List Str) (s : Str) (h : checkSentence ps s = none) :
    GoodSentence s := by
  unfold checkSentence at h
  split_ifs at h with h1 h2 h3 h4
  refine ⟨h1, ?_, ?_, ?_⟩
  · rw [← contains_newline_iff]; exact h2
  · rw [not_not] at h3; exact (trimSpace_eq_self_iff s).1 h3.symm
  · exact fun hc => h4 ((hasSuffix_singleton s '.').2 hc)

/-! ## Lemmas on `validateFormat` -/

theorem hasSuffix_slash_iff (pre : Str) :
    hasSuffix pre "/".toList = true ↔ pre.getLast? = some '/' :=
  hasSuffix_singleton pre '/'

theorem hasPrefix_iff_isPrefix (s pre : Str) : hasPrefix s pre = true ↔ pre <+: s :=
  List.isPrefixOf_iff_prefix

/-- An entry that does not match the body is passed over by the loop. -/
theorem findColonIdx_cons_of_not_matches (content pre : Str) (rest : List Str)
    (h : ¬ EntryMatches pre content) :
    findColonIdx content (pre :: rest) = findColonIdx content rest := by
  unfold EntryMatches at h
  rw [findColonIdx]
  by_cases hs : hasSuffix pre "/".toList = true
  · rw [if_pos hs]
    have hp : ¬ hasPrefix content pre = true := fun hp =>
      h (Or.inl ⟨(hasSuffix_slash_iff pre).1 hs, (hasPrefix_iff_isPrefix _ _).1 hp⟩)
    rw [if_neg hp]
  · rw [if_neg hs]
    have hp : ¬ hasPrefix content (pre ++ ":".toList) = true := fun hp =>
      h (Or.inr ⟨fun hc => hs ((hasSuffix_slash_iff pre).2 hc), (hasPrefix_iff_isPrefix _ _).1 hp⟩)
    rw [if_neg hp]

theorem findColonIdx_skip (content : Str) (l1 rest : List Str)
    (h : ∀ q ∈ l1, ¬ EntryMatches q content) :
    findColonIdx content (l1 ++ rest) = findColonIdx content rest := by
  induction l1 with
  | nil => rfl
  | cons q l1 ih =>
    rw [List.cons_append, findColonIdx_cons_of_not_matches content q _ (h q (List.mem_cons_self _ _))]
    exact ih (fun r hr => h r (List.mem_cons_of_mem _ hr))

theorem findColonIdx_plain (content pre : Str) (rest : List Str)
    (hs : pre.getLast? ≠ some '/') (hp : pre ++ ":".toList <+: content) :
    findColonIdx content (pre :: rest) = .ok (index content ": ".toList) := by
  rw [findColonIdx, if_neg (fun hc => hs ((hasSuffix_slash_iff pre).1 hc)),
    if_pos ((hasPrefix_iff_isPrefix _ _).2 hp)]

theorem findColonIdx_namespaced (content pre : Str) (rest : List Str)
    (hs : pre.getLast? = some '/') (hp : pre <+: content) :
    findColonIdx content (pre :: rest) =
      if matchNamespaced pre content = true then .ok (index content ": ".toList)
      else .error (errNamespaced pre) := by
  rw [findColonIdx, if_pos ((hasSuffix_slash_iff pre).2 hs),
    if_pos ((hasPrefix_iff_isPrefix _ _).2 hp)]
  cases matchNamespaced pre content <;> simp

/-- The value of `colonIdx` after the loop is `-1` or the position of a `": "` in the body. -/
theorem findColonIdx_ok (content : Str) (ps : List Str) (i : Int)
    (h : findColonIdx content ps = .ok i) : i = -1 ∨ i = index content ": ".toList := by
  induction ps with
  | nil => left; simp [findColonIdx] at h; exact h.symm
  | cons pre rest ih =>
    rw [findColonIdx] at h
    split_ifs at h with h1 h2 h3 h4
    all_goals first | exact ih h | (right; cases h; rfl)

theorem index_bounds (s sub : Str) (h : index s sub ≠ -1) :
    0 ≤ index s sub ∧ index s sub + (sub.length : Int) ≤ (s.length : Int) := by
  rcases indexFrom_spec sub s 0 with h1 | ⟨k, hk, hlen, _⟩
  · exact absurd h1 h
  · have hk' : index s sub = ((0 + k : Nat) : Int) := hk
    rw [hk']
    constructor
    · omega
    · push_cast; omega

/-- The slice of line 68 is in range whatever the loop leaves in `colonIdx`. -/
theorem sentenceAt_ok (content : Str) (ps : List Str) (i : Int)
    (h : findColonIdx content ps = .ok i) : ∃ s, sentenceAt content i = .ok s := by
  unfold sentenceAt
  by_cases hi : i = -1
  · exact ⟨[], by simp [hi]⟩
  · rw [if_pos hi]
    rcases findColonIdx_ok content ps i h with h1 | h1
    · exact absurd h1 hi
    · have hb := index_bounds content ": ".toList (h1 ▸ hi)
      rw [← h1] at hb
      have h2 : (": ".toList.length : Int) = 2 := rfl
      rw [h2] at hb
      unfold sliceFrom
      rw [if_pos ⟨by omega, by omega⟩]
      exact ⟨_, rfl⟩

/-- Function `validateFormat` never panics. -/
theorem validateFormat_total (ps : List Str) (content : Str) :
    ∃ e, validateFormat ps content = .ok e := by
  unfold validateFormat
  cases h : findColonIdx content ps with
  | error m => exact ⟨some m, rfl⟩
  | ok i =>
    obtain ⟨s, hs⟩ := sentenceAt_ok content ps i h
    simp only [hs]
    exact ⟨_, rfl⟩

theorem sentenceAt_split (a s : Str) :
    sentenceAt (a ++ (": ".toList ++ s)) (a.length : Int) = .ok s := by
  unfold sentenceAt sliceFrom
  rw [if_pos (by omega), if_pos ⟨by omega, by simp; omega⟩]
  have : ((a.length : Int) + 2).toNat = a.length + 2 := by omega
  rw [this]
  congr 1
  rw [← List.append_assoc]
  have h2 : a.length + 2 = (a ++ ": ".toList).length := by simp
  rw [h2, List.drop_left]

/-- When the loop leaves in `colonIdx` the position at which `a` ends in `a ++ ": " ++ s`, the
result is that of the checks of lines 70-82 on `s`. -/
theorem validateFormat_of_split (ps : List Str) (a s : Str)
    (h : findColonIdx (a ++ (": ".toList ++ s)) ps = .ok (a.length : Int)) :
    validateFormat ps (a ++ (": ".toList ++ s)) = .ok (checkSentence ps s) := by
  unfold validateFormat
  simp only [h, sentenceAt_split]

theorem checkSentence_newline (ps : List Str) (s : Str) (h : '\n' ∈ s) :
    checkSentence ps s = some errSingleLine := by
  have hne : s ≠ [] := List.ne_nil_of_mem h
  unfold checkSentence
  rw [if_neg hne, if_pos ((contains_newline_iff s).2 h)]

theorem checkSentence_whitespace (ps : List Str) (s : Str) (h1 : '\n' ∉ s)
    (h2 : trimSpace s ≠ s) : checkSentence ps s = some errWhitespace := by
  have hne : s ≠ [] := by
    rintro rfl
    exact h2 rfl
  unfold checkSentence
  rw [if_neg hne, if_neg (fun hc => h1 ((contains_newline_iff s).1 hc)), if_pos (Ne.symm h2)]

theorem checkSentence_period (ps : List Str) (s : Str) (h1 : '\n' ∉ s) (h2 : NoOuterSpace s)
    (h3 : s.getLast? = some '.') : checkSentence ps s = some errPeriod := by
  have hne : s ≠ [] := by
    rintro rfl
    simp at h3
  unfold checkSentence
  rw [if_neg hne, if_neg (fun hc => h1 ((contains_newline_iff s).1 hc)),
    if_neg (by rw [not_not]; exact ((trimSpace_eq_self_iff s).2 h2).symm),
    if_pos (show hasSuffix s ".".toList = true from (hasSuffix_singleton s '.').2 h3)]

/-- A plain prefix that is the first entry to match `pre ++ ": " ++ s` and holds no `": "`:
the sentence checked is `s`. -/
theorem validateFormat_plain (l1 l2 : List Str) (pre s : Str)
    (hplain : pre.getLast? ≠ some '/') (hcolon : ¬ ": ".toList <:+: pre)
    (hfirst : ∀ q ∈ l1, ¬ EntryMatches q (pre ++ ": ".toList ++ s)) :
    validateFormat (l1 ++ pre :: l2) (pre ++ ": ".toList ++ s) =
      .ok (checkSentence (l1 ++ pre :: l2) s) := by
  rw [List.append_assoc] at hfirst ⊢
  apply validateFormat_of_split
  rw [findColonIdx_skip _ _ _ hfirst, findColonIdx_plain _ _ _ hplain ⟨' ' :: s, by simp⟩,
    index_colon _ _ hcolon]

theorem not_mem_of_wordRun (w : Str) (hw : WordRun w) : ' ' ∉ w := by
  intro hc
  have := hw.2 ' ' hc
  simp [isWordChar] at this

/-- A namespaced prefix that is the first entry to match `pre ++ w ++ ": " ++ s` and holds no
`": "`: the loop leaves in `colonIdx` the position at which `w` ends. -/
theorem findColonIdx_namespaced_split (l1 l2 : List Str) (pre w s : Str)
    (hns : pre.getLast? = some '/') (hcolon : ¬ ": ".toList <:+: pre) (hw : WordRun w)
    (hs1 : s ≠ []) (hs2 : '\n' ∉ s)
    (hfirst : ∀ q ∈ l1, ¬ EntryMatches q (pre ++ w ++ ": ".toList ++ s)) :
    findColonIdx (pre ++ w ++ ": ".toList ++ s) (l1 ++ pre :: l2) =
      .ok (((pre ++ w).length : Nat) : Int) := by
  have hshape : matchNamespaced pre (pre ++ w ++ ": ".toList ++ s) = true :=
    (matchNamespaced_iff _ _).2 ⟨w, s, rfl, hw, hs1, hs2⟩
  rw [findColonIdx_skip _ _ _ hfirst,
    findColonIdx_namespaced _ _ _ hns ⟨w ++ ": ".toList ++ s, by simp⟩, if_pos hshape]
  rw [List.append_assoc (pre ++ w),
    index_colon _ _ (not_infix_append_word pre w hcolon (not_mem_of_wordRun w hw))]

theorem validateFormat_namespaced (l1 l2 : List Str) (pre w s : Str)
    (hns : pre.getLast? = some '/') (hcolon : ¬ ": ".toList <:+: pre) (hw : WordRun w)
    (hs1 : s ≠ []) (hs2 : '\n' ∉ s)
    (hfirst : ∀ q ∈ l1, ¬ EntryMatches q (pre ++ w ++ ": ".toList ++ s)) :
    validateFormat (l1 ++ pre :: l2) (pre ++ w ++ ": ".toList ++ s) =
      .ok (checkSentence (l1 ++ pre :: l2) s) := by
  have h := findColonIdx_namespaced_split l1 l2 pre w s hns hcolon hw hs1 hs2 hfirst
  rw [List.append_assoc (pre ++ w)] at h ⊢
  exact validateFormat_of_split _ _ _ h

/-! ## Properties of `validateFormat` -/

/-- C5: a body `p ++ ": " ++ s`, where the plain prefix `p` (not ending with `/`, holding no
`": "`) is the first list entry that matches the body and `s` is a good sentence (not empty, on
one line, no white space at either end, no final period), passes `validateFormat`. -/
theorem validateFormat_plain_accepts (l1 l2 : List Str) (p s : Str)
    (hplain : p.getLast? ≠ some '/') (hcolon : ¬ ": ".toList <:+: p)
    (hfirst : ∀ q ∈ l1, ¬ EntryMatches q (p ++ ": ".toList ++ s))
    (hs : GoodSentence s) :
    validateFormat (l1 ++ p :: l2) (p ++ ": ".toList ++ s) = .ok none := by
  rw [validateFormat_plain l1 l2 p s hplain hcolon hfirst, checkSentence_good _ s hs]

/-- Witness for C5: `fix: corrected the bug`, with `deps/` listed before `fix`. -/
theorem validateFormat_plain_accepts_witness :
    validateFormat ["deps/".toList, "fix".toList, "feat".toList]
      "fix: corrected the bug".toList = .ok none :=
  validateFormat_plain_accepts ["deps/".toList] ["feat".toList] "fix".toList
    "corrected the bug".toList (by decide) (by decide) (by decide) (by decide)

/-- C7: a body `p ++ w ++ ": " ++ s`, where the namespaced prefix `p` (ending with `/`, holding
no `": "`) is the first list entry that matches the body, `w` is a non-empty run of word
characters and `s` is a good sentence, passes `validateFormat`; the split point is the end of
`w` and the sentence checked is `s`. -/
theorem validateFormat_namespaced_accepts (l1 l2 : List Str) (p w s : Str)
    (hns : p.getLast? = some '/') (hcolon : ¬ ": ".toList <:+: p) (hw : WordRun w)
    (hfirst : ∀ q ∈ l1, ¬ EntryMatches q (p ++ w ++ ": ".toList ++ s))
    (hs : GoodSentence s) :
    validateFormat (l1 ++ p :: l2) (p ++ w ++ ": ".toList ++ s) = .ok none ∧
      findColonIdx (p ++ w ++ ": ".toList ++ s) (l1 ++ p :: l2) =
        .ok (((p ++ w).length : Nat) : Int) ∧
      sentenceAt (p ++ w ++ ": ".toList ++ s) (((p ++ w).length : Nat) : Int) = .ok s := by
  refine ⟨?_, findColonIdx_namespaced_split l1 l2 p w s hns hcolon hw hs.1 hs.2.1 hfirst, ?_⟩
  · rw [validateFormat_namespaced l1 l2 p w s hns hcolon hw hs.1 hs.2.1 hfirst,
      checkSentence_good _ s hs]
  · rw [List.append_assoc (p ++ w)]
    exact sentenceAt_split (p ++ w) s

/-- Witness for C7: `deps/security: bumped version`; the sub-tag is `security` and the split point is 13. -/
theorem validateFormat_namespaced_accepts_witness :
    validateFormat ["fix".toList, "deps/".toList] "deps/security: bumped version".toList =
        .ok none ∧
      findColonIdx "deps/security: bumped version".toList ["fix".toList, "deps/".toList] =
        .ok 13 ∧
      sentenceAt "deps/security: bumped version".toList 13 = .ok "bumped version".toList :=
  validateFormat_namespaced_accepts ["fix".toList] [] "deps/".toList "security".toList
    "bumped version".toList (by decide) (by decide) (by decide) (by decide) (by decide)

/-- C8: a body `p ++ ": " ++ s`, where the plain prefix `p` is the first list entry that
matches and `s` is on one line, has no white space at either end and ends with a period, is
rejected with the message `sentence must not end with a period`. -/
theorem validateFormat_period (l1 l2 : List Str) (p s : Str)
    (hplain : p.getLast? ≠ some '/') (hcolon : ¬ ": ".toList <:+: p)
    (hfirst : ∀ q ∈ l1, ¬ EntryMatches q (p ++ ": ".toList ++ s))
    (hline : '\n' ∉ s) (hspace : NoOuterSpace s) (hdot : s.getLast? = some '.') :
    validateFormat (l1 ++ p :: l2) (p ++ ": ".toList ++ s) =
      .ok (some "sentence must not end with a period".toList) := by
  rw [validateFormat_plain l1 l2 p s hplain hcolon hfirst,
    checkSentence_period _ s hline hspace hdot]
  rfl

/-- Witness for C8: `fix: corrected the bug.`. -/
theorem validateFormat_period_witness :
    validateFormat ["fix".toList] "fix: corrected the bug.".toList =
      .ok (some "sentence must not end with a period".toList) :=
  validateFormat_period [] [] "fix".toList "corrected the bug.".toList
    (by decide) (by decide) (by decide) (by decide) (by decide) (by decide)

/-- C9: a body `p ++ ": " ++ s`, where the plain prefix `p` is the first list entry that
matches and `s` is on one line and differs from its trimmed form, is rejected with the message
`sentence must not have leading or trailing whitespace`, whether or not `s` ends with a
period. -/
theorem validateFormat_whitespace (l1 l2 : List Str) (p s : Str)
    (hplain : p.getLast? ≠ some '/') (hcolon : ¬ ": ".toList <:+: p)
    (hfirst : ∀ q ∈ l1, ¬ EntryMatches q (p ++ ": ".toList ++ s))
    (hline : '\n' ∉ s) (htrim : trimSpace s ≠ s) :
    validateFormat (l1 ++ p :: l2) (p ++ ": ".toList ++ s) =
      .ok (some "sentence must not have leading or trailing whitespace".toList) := by
  rw [validateFormat_plain l1 l2 p s hplain hcolon hfirst,
    checkSentence_whitespace _ s hline htrim]
  rfl

/-- Witness for C9: `fix:  extra space`, whose sentence is ` extra space`. -/
theorem validateFormat_whitespace_witness :
    validateFormat ["fix".toList] "fix:  extra space".toList =
      .ok (some "sentence must not have leading or trailing whitespace".toList) :=
  validateFormat_whitespace [] [] "fix".toList " extra space".toList
    (by decide) (by decide) (by decide) (by decide) (by decide)

/-- C10: a body `p ++ ": " ++ s`, where the plain prefix `p` is the first list entry that
matches and `s` holds a line feed, is rejected with the message `sentence must be single line`,
whatever else holds of `s`. -/
theorem validateFormat_single_line (l1 l2 : List Str) (p s : Str)
    (hplain : p.getLast? ≠ some '/') (hcolon : ¬ ": ".toList <:+: p)
    (hfirst : ∀ q ∈ l1, ¬ EntryMatches q (p ++ ": ".toList ++ s))
    (hline : '\n' ∈ s) :
    validateFormat (l1 ++ p :: l2) (p ++ ": ".toList ++ s) =
      .ok (some "sentence must be single line".toList) := by
  rw [validateFormat_plain l1 l2 p s hplain hcolon hfirst, checkSentence_newline _ s hline]
  rfl

/-- Witness for C10: a sentence with a line feed that also starts with a blank and ends with a period and a blank. -/
theorem validateFormat_single_line_witness :
    validateFormat ["fix".toList] "fix:  first line\nsecond line. ".toList =
      .ok (some "sentence must be single line".toList) :=
  validateFormat_single_line [] [] "fix".toList " first line\nsecond line. ".toList
    (by decide) (by decide) (by decide) (by decide)

/-- The checks of lines 70-82 never produce the message of line 56. -/
theorem checkSentence_ne_errNamespaced (ps : List Str) (s pre : Str) :
    checkSentence ps s ≠ some (errNamespaced pre) := by
  have hn : (errNamespaced pre).take 7 = "entry w".toList := rfl
  have key : ∀ m : Str, m.take 7 ≠ "entry w".toList → some m ≠ some (errNamespaced pre) := by
    intro m hm hc
    rw [Option.some.injEq] at hc
    rw [hc] at hm
    exact hm hn
  unfold checkSentence
  split_ifs
  · exact key _ (by
      have : (errFormat ps).take 7 = "entry m".toList := rfl
      rw [this]; decide)
  · exact key _ (by decide)
  · exact key _ (by decide)
  · exact key _ (by decide)
  · exact fun hc => Option.noConfusion hc

theorem validateFormat_of_not_shape (l1 l2 : List Str) (pre body : Str)
    (hns : pre.getLast? = some '/') (hpre : pre <+: body)
    (hfirst : ∀ q ∈ l1, ¬ EntryMatches q body) (hshape : ¬ NamespacedShape pre body) :
    validateFormat (l1 ++ pre :: l2) body = .ok (some (errNamespaced pre)) := by
  have hm : ¬ matchNamespaced pre body = true := fun hc => hshape ((matchNamespaced_iff _ _).1 hc)
  unfold validateFormat
  rw [findColonIdx_skip _ _ _ hfirst, findColonIdx_namespaced _ _ _ hns hpre, if_neg hm]

theorem validateFormat_of_shape (l1 l2 : List Str) (pre body : Str)
    (hns : pre.getLast? = some '/') (hpre : pre <+: body)
    (hfirst : ∀ q ∈ l1, ¬ EntryMatches q body) (hshape : NamespacedShape pre body) :
    validateFormat (l1 ++ pre :: l2) body ≠ .ok (some (errNamespaced pre)) := by
  have hm : matchNamespaced pre body = true := (matchNamespaced_iff _ _).2 hshape
  have hf : findColonIdx body (l1 ++ pre :: l2) = .ok (index body ": ".toList) := by
    rw [findColonIdx_skip _ _ _ hfirst, findColonIdx_namespaced _ _ _ hns hpre, if_pos hm]
  obtain ⟨s, hs⟩ := sentenceAt_ok body _ _ hf
  unfold validateFormat
  simp only [hf, hs]
  intro hc
  rw [Except.ok.injEq] at hc
  exact checkSentence_ne_errNamespaced _ _ _ hc

theorem not_shape_of_empty_subtag (pre r : Str) :
    ¬ NamespacedShape pre (pre ++ ": ".toList ++ r) := by
  rintro ⟨w, r2, h, ⟨hw1, hw2⟩, _, _⟩
  rw [List.append_assoc, List.append_assoc, List.append_assoc, List.append_cancel_left_eq] at h
  cases w with
  | nil => exact hw1 rfl
  | cons c w =>
    have hc := hw2 c (List.mem_cons_self _ _)
    simp only [String.toList, List.cons_append, List.cons.injEq] at h
    rw [← h.1] at hc
    simp [isWordChar] at hc

theorem not_shape_of_bad_subtag (pre w r : Str) (c : Char) (hc : c ∈ w)
    (hcw : isWordChar c = false) (hw : ¬ ": ".toList <:+: w) :
    ¬ NamespacedShape pre (pre ++ w ++ ": ".toList ++ r) := by
  rintro ⟨w2, r2, h, ⟨_, hw2⟩, _, _⟩
  rw [List.append_assoc, List.append_assoc, List.append_assoc, List.append_assoc,
    List.append_cancel_left_eq, List.append_eq_append_iff] at h
  rcases h with ⟨a, rfl, _⟩ | ⟨d, rfl, hd⟩
  · have := hw2 c (List.mem_append_left _ hc)
    rw [hcw] at this; cases this
  · rcases List.mem_append.1 hc with hc | hc
    · have := hw2 c hc
      rw [hcw] at this; cases this
    · match d, hc, hd with
      | [x], _, hd =>
        simp [String.toList] at hd
      | x :: y :: d, _, hd =>
        simp only [String.toList, List.cons_append, List.cons.injEq] at hd
        obtain ⟨rfl, rfl, _⟩ := hd
        exact hw ⟨w2, d, by simp⟩

theorem isWordChar_of_non_ascii (c : Char) (h : 128 ≤ c.toNat) : isWordChar c = false := by
  unfold isWordChar
  simp only [Bool.or_eq_false_iff, Bool.and_eq_false_imp, decide_eq_true_eq, decide_eq_false_iff_not,
    beq_eq_false_iff_ne, ne_eq]
  omega

/-- C6: when the first list entry that matches the body is a namespaced prefix `p` (it ends
with `/` and the body starts with it), `validateFormat` fails with the message
`entry with prefix 'p' must have format 'p<word>: <sentence>'` if and only if the body is not
`p`, a non-empty run of word characters `[0-9A-Za-z_]`, `": "` and a non-empty rest without a
line feed.  In particular the message is returned for an empty sub-tag, and for a sub-tag that
holds a character outside `[0-9A-Za-z_]` (and no `": "`); no character beyond ASCII is a word
character. -/
theorem validateFormat_namespaced_shape (l1 l2 : List Str) (p body : Str)
    (hns : p.getLast? = some '/') (hpre : p <+: body)
    (hfirst : ∀ q ∈ l1, ¬ EntryMatches q body) :
    (validateFormat (l1 ++ p :: l2) body =
        .ok (some ("entry with prefix '".toList ++ p ++ "' must have format '".toList ++ p ++
          "<word>: <sentence>'".toList)) ↔
      ¬ ∃ w r : Str, body = p ++ w ++ ": ".toList ++ r ∧
          (w ≠ [] ∧ ∀ c ∈ w, isWordChar c = true) ∧ r ≠ [] ∧ '\n' ∉ r) ∧
    (∀ r : Str, body = p ++ ": ".toList ++ r →
      validateFormat (l1 ++ p :: l2) body =
        .ok (some ("entry with prefix '".toList ++ p ++ "' must have format '".toList ++ p ++
          "<word>: <sentence>'".toList))) ∧
    (∀ (w r : Str) (c : Char), body = p ++ w ++ ": ".toList ++ r → c ∈ w →
      isWordChar c = false → ¬ ": ".toList <:+: w →
      validateFormat (l1 ++ p :: l2) body =
        .ok (some ("entry with prefix '".toList ++ p ++ "' must have format '".toList ++ p ++
          "<word>: <sentence>'".toList))) ∧
    (∀ c : Char, 128 ≤ c.toNat → isWordChar c = false) := by
  refine ⟨⟨?_, ?_⟩, ?_, ?_, isWordChar_of_non_ascii⟩
  · intro h hshape
    exact validateFormat_of_shape l1 l2 p body hns hpre hfirst hshape h
  · intro hshape
    exact validateFormat_of_not_shape l1 l2 p body hns hpre hfirst hshape
  · intro r hr
    apply validateFormat_of_not_shape l1 l2 p body hns hpre hfirst
    rw [hr]
    exact not_shape_of_empty_subtag p r
  · intro w r c hb hc hcw hw
    apply validateFormat_of_not_shape l1 l2 p body hns hpre hfirst
    rw [hb]
    exact not_shape_of_bad_subtag p w r c hc hcw hw

/-- Witness for C6: `deps/: updated library`, whose sub-tag is empty. -/
theorem validateFormat_namespaced_shape_witness :
    validateFormat ["fix".toList, "deps/".toList] "deps/: updated library".toList =
      .ok (some "entry with prefix 'deps/' must have format 'deps/<word>: <sentence>'".toList) :=
  (validateFormat_namespaced_shape ["fix".toList] [] "deps/".toList
    "deps/: updated library".toList (by decide) (by decide) (by decide)).2.1
    "updated library".toList rfl

/-! ## Lemmas on the loop of `main` -/

/-- The loop of lines 37-43 ends, and appends to `errors` the errors of the notes in order. -/
theorem checkNotes_eq (T P : List Str) (notes : List Note) (i : Nat) (errors : List Str) :
    checkNotes T P i notes errors = .ok (errors ++ entryErrors T P i notes) := by
  induction notes generalizing i errors with
  | nil => simp [checkNotes, entryErrors]
  | cons note rest ih =>
    rw [checkNotes, entryErrors, entryError]
    by_cases ht : (!T.contains note.type) = true
    · rw [if_pos ht, if_pos ht, ih]
      simp
    · rw [if_neg ht, if_neg ht]
      obtain ⟨e, he⟩ := validateFormat_total P note.body
      rw [he]
      cases e with
      | none => simp only [ih]; simp
      | some err => simp only [ih]; simp

theorem mem_entryErrors (T P : List Str) (notes : List Note) (i k : Nat) (note : Note) (e : Str)
    (hk : notes[k]? = some note) (he : entryError T P (i + k) note = some e) :
    e ∈ entryErrors T P i notes := by
  induction notes generalizing i k with
  | nil => simp at hk
  | cons n rest ih =>
    rw [entryErrors]
    cases k with
    | zero =>
      simp only [List.getElem?_cons_zero, Option.some.injEq] at hk
      subst hk
      rw [Nat.add_zero] at he
      rw [he]
      simp
    | succ k =>
      simp only [List.getElem?_cons_succ] at hk
      apply List.mem_append_right
      apply ih (i + 1) k hk
      rw [← he]; congr 1; omega

theorem entryError_unknown (T P : List Str) (i : Nat) (note : Note) (h : note.type ∉ T) :
    entryError T P i note = some (errUnknownType T i note.type) := by
  unfold entryError
  rw [if_pos (by simpa using h)]

theorem entryError_format (T P : List Str) (i : Nat) (note : Note) (e : Str)
    (h : note.type ∈ T) (he : validateFormat P note.body = .ok (some e)) :
    entryError T P i note = some (errEntry i e) := by
  unfold entryError
  rw [if_neg (by simpa using h), he]

theorem entryError_eq_none_iff (T P : List Str) (i : Nat) (note : Note) :
    entryError T P i note = none ↔ note.type ∈ T ∧ validateFormat P note.body = .ok none := by
  unfold entryError
  by_cases ht : note.type ∈ T
  · rw [if_neg (by simpa using ht)]
    obtain ⟨e, he⟩ := validateFormat_total P note.body
    rw [he]
    cases e <;> simp [ht]
  · rw [if_pos (by simpa using ht)]
    simp [ht]

theorem entryErrors_eq_nil_iff (T P : List Str) (notes : List Note) (i : Nat) :
    entryErrors T P i notes = [] ↔
      ∀ n ∈ notes, n.type ∈ T ∧ validateFormat P n.body = .ok none := by
  induction notes generalizing i with
  | nil => simp [entryErrors]
  | cons n rest ih =>
    rw [entryErrors, List.append_eq_nil, ih (i + 1), List.forall_mem_cons,
      ← entryError_eq_none_iff T P i n]
    cases entryError T P i n <;> simp

/-- Result of `main` once the file is read and holds at least one note. -/
theorem main_of_notes (T P : List Str) (readFile : Str → ReadResult)
    (notesFromEntry : Str → List Note) (arg0 path content : Str) (more : List Str)
    (hread : readFile path = .data content) (hnotes : notesFromEntry content ≠ []) :
    main T P readFile notesFromEntry (arg0 :: path :: more) =
      if entryErrors T P 0 (notesFromEntry content) = [] then .done msgValid
      else .fatal (msgInvalid (entryErrors T P 0 (notesFromEntry content))) := by
  unfold main
  simp only [hread]
  rw [if_neg (by simpa using hnotes), checkNotes_eq]
  simp only [List.nil_append]
  by_cases h : entryErrors T P 0 (notesFromEntry content) = []
  · rw [if_pos h, h]; simp
  · rw [if_neg h, if_pos (List.length_pos.2 h)]

/-! ## Properties of the run -/

/-- C1 (the code at the failing input): with `fix` the only allowed prefix, `validateFormat`
returns no error on the body `fix:x: y`, which is not an allowed prefix followed by `": "` and a
sentence; the test of line 61 looks for `fix:` only and line 62 takes the first `": "` of the
whole body. -/
theorem validateFormat_accepts_missing_blank :
    validateFormat ["fix".toList] "fix:x: y".toList = .ok none ∧
      ¬ PrefixedSentence ["fix".toList] "fix:x: y".toList := by
  refine ⟨by decide, ?_⟩
  rintro ⟨p, hp, h⟩
  rw [List.mem_singleton] at hp
  subst hp
  rcases h with ⟨_, s, hs, _⟩ | ⟨hns, _⟩
  · simp [String.toList] at hs
  · exact absurd hns (by decide)

/-- C2: once the file is read and holds at least one note, `main` reports success if and only
if every note has an allowed type and a body on which `validateFormat` returns no error; and
`main` either reports success or fails with the list of errors, which is then not empty. -/
theorem main_success_iff (T P : List Str) (readFile : Str → ReadResult)
    (notesFromEntry : Str → List Note) (arg0 path content : Str) (more : List Str)
    (hread : readFile path = .data content) (hnotes : notesFromEntry content ≠ []) :
    (main T P readFile notesFromEntry (arg0 :: path :: more) =
        .done "Changelog entry is valid\n".toList ↔
      ∀ n ∈ notesFromEntry content, n.type ∈ T ∧ validateFormat P n.body = .ok none) ∧
    (main T P readFile notesFromEntry (arg0 :: path :: more) =
        .done "Changelog entry is valid\n".toList ∨
      ∃ errors : List Str, errors ≠ [] ∧
        checkNotes T P 0 (notesFromEntry content) [] = .ok errors ∧
        main T P readFile notesFromEntry (arg0 :: path :: more) =
          .fatal ("Error validating changelog:\n  - ".toList ++ join errors "\n  - ".toList)) := by
  rw [main_of_notes T P readFile notesFromEntry arg0 path content more hread hnotes,
    ← entryErrors_eq_nil_iff T P (notesFromEntry content) 0]
  by_cases h : entryErrors T P 0 (notesFromEntry content) = []
  · rw [if_pos h]
    exact ⟨⟨fun _ => h, fun _ => rfl⟩, Or.inl rfl⟩
  · rw [if_neg h]
    refine ⟨⟨fun hc => Outcome.noConfusion hc, fun hc => absurd hc h⟩, Or.inr ⟨_, h, ?_, rfl⟩⟩
    rw [checkNotes_eq]; rfl

/-- Witness for C2: one note of type `bug` with the body `fix: corrected the bug`. -/
theorem main_success_iff_witness :
    main ["bug".toList] ["fix".toList] (fun _ => .data "text".toList)
        (fun _ => [⟨"bug".toList, "fix: corrected the bug".toList⟩]) ["cmd".toList, "f".toList] =
      .done "Changelog entry is valid\n".toList :=
  (main_success_iff ["bug".toList] ["fix".toList] (fun _ => .data "text".toList)
    (fun _ => [⟨"bug".toList, "fix: corrected the bug".toList⟩]) "cmd".toList "f".toList
    "text".toList [] rfl (by decide)).1.2 (by decide)

/-- C3 (counterexample): the body of entry 1 fails `validateFormat` with the period message,
but the type of entry 1 is not allowed, so the only error collected is the one on the type; the
labeled format error `Entry 1: sentence must not end with a period` is not in the list. -/
theorem checkNotes_type_error_only :
    validateFormat ["fix".toList] "fix: done.".toList =
        .ok (some "sentence must not end with a period".toList) ∧
      checkNotes ["bug".toList] ["fix".toList] 0 [⟨"note".toList, "fix: done.".toList⟩] [] =
        .ok ["Entry 1: Unknown changelog type 'note', please use only the configured changelog entry types [bug]".toList] ∧
      "Entry 1: sentence must not end with a period".toList ∉
        ["Entry 1: Unknown changelog type 'note', please use only the configured changelog entry types [bug]".toList] := by
  refine ⟨by decide, by decide, by decide⟩

/-- C3 (amended): for every list of notes and every position `k` (from 0, label `k + 1`), if
the type of the note at `k` is allowed and `validateFormat` returns the error `e` on its body,
then the loop ends and the list of errors holds `Entry (k+1): e`, whatever the other notes
are. -/
theorem checkNotes_collects_format_error (T P : List Str) (notes : List Note) (k : Nat)
    (note : Note) (e : Str) (hk : notes[k]? = some note) (ht : note.type ∈ T)
    (he : validateFormat P note.body = .ok (some e)) :
    ∃ errors : List Str, checkNotes T P 0 notes [] = .ok errors ∧
      "Entry ".toList ++ fmtInt (k + 1) ++ ": ".toList ++ e ∈ errors := by
  refine ⟨_, checkNotes_eq T P notes 0 [], ?_⟩
  rw [List.nil_append]
  apply mem_entryErrors T P notes 0 k note _ hk
  rw [Nat.zero_add]
  exact entryError_format T P k note e ht he

/-- Witness for C3 (amended): the second note has an allowed type and a body ending with a period; the first has a type that is not allowed. -/
theorem checkNotes_collects_format_error_witness :
    ∃ errors : List Str,
      checkNotes ["bug".toList] ["fix".toList] 0
          [⟨"note".toList, "fix: one".toList⟩, ⟨"bug".toList, "fix: done.".toList⟩] [] =
        .ok errors ∧
      "Entry 2: sentence must not end with a period".toList ∈ errors :=
  checkNotes_collects_format_error ["bug".toList] ["fix".toList]
    [⟨"note".toList, "fix: one".toList⟩, ⟨"bug".toList, "fix: done.".toList⟩] 1
    ⟨"bug".toList, "fix: done.".toList⟩ "sentence must not end with a period".toList
    rfl (by decide) (by decide)

/-- C4: once the file is read, if the note at position `k` (from 0, label `k + 1`) has a type
`t` that is not allowed, then `main` fails with the list of errors, and the list holds
`Entry (k+1): Unknown changelog type 't', please use only the configured changelog entry types`
followed by the allowed types, whatever the other notes are; the notes after `k` are still
checked: each one with a type that is not allowed, or with an allowed type and a body that
fails `validateFormat`, has its error in the list. -/
theorem main_unknown_type (T P : List Str) (readFile : Str → ReadResult)
    (notesFromEntry : Str → List Note) (arg0 path content : Str) (more : List Str)
    (k : Nat) (note : Note)
    (hread : readFile path = .data content)
    (hk : (notesFromEntry content)[k]? = some note) (ht : note.type ∉ T) :
    ∃ errors : List Str,
      checkNotes T P 0 (notesFromEntry content) [] = .ok errors ∧
      main T P readFile notesFromEntry (arg0 :: path :: more) =
        .fatal ("Error validating changelog:\n  - ".toList ++ join errors "\n  - ".toList) ∧
      "Entry ".toList ++ fmtInt (k + 1) ++ ": Unknown changelog type '".toList ++ note.type ++
        "', please use only the configured changelog entry types ".toList ++
        ("[".toList ++ join T " ".toList ++ "]".toList) ∈ errors ∧
      ∀ (j : Nat) (later : Note), k < j → (notesFromEntry content)[j]? = some later →
        (later.type ∉ T →
          "Entry ".toList ++ fmtInt (j + 1) ++ ": Unknown changelog type '".toList ++
            later.type ++ "', please use only the configured changelog entry types ".toList ++
            ("[".toList ++ join T " ".toList ++ "]".toList) ∈ errors) ∧
        (later.type ∈ T → ∀ e : Str, validateFormat P later.body = .ok (some e) →
          "Entry ".toList ++ fmtInt (j + 1) ++ ": ".toList ++ e ∈ errors) := by
  have hmem : errUnknownType T k note.type ∈ entryErrors T P 0 (notesFromEntry content) := by
    apply mem_entryErrors T P _ 0 k note _ hk
    rw [Nat.zero_add]
    exact entryError_unknown T P k note ht
  have hne : entryErrors T P 0 (notesFromEntry content) ≠ [] := List.ne_nil_of_mem hmem
  have hnotes : notesFromEntry content ≠ [] := by
    intro hc
    rw [hc] at hk
    simp at hk
  refine ⟨_, by rw [checkNotes_eq]; rfl, ?_, hmem, ?_⟩
  · rw [main_of_notes T P readFile notesFromEntry arg0 path content more hread hnotes,
      if_neg hne]
    rfl
  · intro j later _ hj
    constructor
    · intro hlt
      apply mem_entryErrors T P _ 0 j later _ hj
      rw [Nat.zero_add]
      exact entryError_unknown T P j later hlt
    · intro hlt e he
      apply mem_entryErrors T P _ 0 j later _ hj
      rw [Nat.zero_add]
      exact entryError_format T P j later e hlt he

/-- Witness for C4: the second of three notes has the type `note`, which is not allowed; the third fails the period check and is reported too. -/
theorem main_unknown_type_witness :
    ∃ errors : List Str,
      checkNotes ["bug".toList] ["fix".toList] 0
        [⟨"bug".toList, "fix: one".toList⟩, ⟨"note".toList, "fix: two".toList⟩,
          ⟨"bug".toList, "fix: done.".toList⟩] [] = .ok errors ∧
      "Entry 2: Unknown changelog type 'note', please use only the configured changelog entry types [bug]".toList
        ∈ errors ∧
      "Entry 3: sentence must not end with a period".toList ∈ errors :=
  let h := main_unknown_type ["bug".toList] ["fix".toList] (fun _ => .data "text".toList)
    (fun _ => [⟨"bug".toList, "fix: one".toList⟩, ⟨"note".toList, "fix: two".toList⟩,
      ⟨"bug".toList, "fix: done.".toList⟩]) "cmd".toList "f".toList "text".toList [] 1
    ⟨"note".toList, "fix: two".toList⟩ rfl rfl (by decide)
  h.elim fun errors he =>
    ⟨errors, he.1, he.2.2.1,
      (he.2.2.2 2 ⟨"bug".toList, "fix: done.".toList⟩ (by decide) rfl).2 (by decide)
        "sentence must not end with a period".toList (by decide)⟩

/-! ## The first `": "` of a body -/

/-- No occurrence of `sub` starts before the position the scan returns. -/
theorem indexFrom_not_before (sub s : Str) (n k : Nat)
    (h : indexFrom sub s n = ((n + k : Nat) : Int)) :
    ∀ j, j < k → hasPrefix (s.drop j) sub = false := by
  induction s generalizing n k with
  | nil =>
    intro j hj
    unfold indexFrom at h
    split_ifs at h with h1
    · omega
  | cons c cs ih =>
    intro j hj
    unfold indexFrom at h
    split_ifs at h with h1
    · have : k = 0 := by omega
      omega
    · rcases indexFrom_spec sub cs (n + 1) with h2 | ⟨k2, hk2, _, _⟩
      · rw [h2] at h; omega
      · rw [hk2] at h
        have hk : k = k2 + 1 := by omega
        cases j with
        | zero => simpa using h1
        | succ j =>
          rw [List.drop_succ_cons]
          exact ih (n + 1) k2 hk2 j (by omega)

theorem index_not_before (s sub : Str) (k : Nat) (h : index s sub = (k : Int)) :
    ∀ j, j < k → hasPrefix (s.drop j) sub = false :=
  indexFrom_not_before sub s 0 k (by rw [Nat.zero_add]; exact h)

/-- The position returned by `strings.Index` is at most that of any occurrence. -/
theorem index_le_of_occurrence (sub x y : Str) (k : Nat)
    (h : index (x ++ (sub ++ y)) sub = (k : Int)) : k ≤ x.length := by
  by_contra hc
  have h1 := index_not_before _ sub k h x.length (by omega)
  rw [List.drop_left, hasPrefix_append] at h1
  cases h1

theorem getElem?_of_infix_two (l : Str) (x y : Char) (h : [x, y] <:+: l) :
    ∃ j, l[j]? = some x ∧ l[j + 1]? = some y := by
  obtain ⟨a, b, rfl⟩ := h
  refine ⟨a.length, ?_, ?_⟩
  · rw [List.append_assoc, List.getElem?_append_right (le_refl _)]; simp
  · rw [List.append_assoc, List.getElem?_append_right (by omega)]; simp

/-- A position other than `-1` returned by `strings.Index(s, ": ")` splits `s` at its first
`": "`. -/
theorem index_split (s : Str) (h : index s ": ".toList ≠ -1) :
    ∃ a b : Str, s = a ++ (": ".toList ++ b) ∧ ¬ ": ".toList <:+: a ∧
      index s ": ".toList = (a.length : Int) := by
  rcases indexFrom_spec ": ".toList s 0 with h1 | ⟨k, hk, hlen, hp⟩
  · exact absurd h1 h
  · have hk2 : index s ": ".toList = (k : Int) := by
      have : index s ": ".toList = ((0 + k : Nat) : Int) := hk
      rw [this, Nat.zero_add]
    obtain ⟨b, hb⟩ := (hasPrefix_iff _ _).1 hp
    have hlen2 : k ≤ s.length := by omega
    have hta : (s.take k).length = k := by rw [List.length_take]; omega
    refine ⟨s.take k, b, ?_, ?_, ?_⟩
    · rw [← hb, List.take_append_drop]
    · intro hin
      obtain ⟨j, h0, h1⟩ := getElem?_of_infix_two (s.take k) ':' ' ' hin
      have hj : j + 1 < k := by
        have := (List.getElem?_eq_some_iff.1 h1).1
        omega
      rw [List.getElem?_take_of_lt (by omega)] at h0
      rw [List.getElem?_take_of_lt hj] at h1
      have hpre : hasPrefix (s.drop j) ": ".toList = true :=
        (hasPrefix_drop_two s ':' ' ' j).2 ⟨h0, h1⟩
      rw [index_not_before s ": ".toList k hk2 j (by omega)] at hpre
      cases hpre
    · rw [hk2, hta]

/-! ## Cases of the loop over the prefixes -/

/-- Either no list entry matches the body, or the list splits at its first matching entry. -/
theorem first_match_cases (ps : List Str) (body : Str) :
    (∀ q ∈ ps, ¬ EntryMatches q body) ∨
      ∃ (l1 : List Str) (p : Str) (l2 : List Str), ps = l1 ++ p :: l2 ∧
        (∀ q ∈ l1, ¬ EntryMatches q body) ∧ EntryMatches p body := by
  induction ps with
  | nil => left; intro q hq; cases hq
  | cons p rest ih =>
    by_cases hp : EntryMatches p body
    · right; exact ⟨[], p, rest, rfl, fun q hq => absurd hq (List.not_mem_nil q), hp⟩
    · rcases ih with h | ⟨l1, q, l2, rfl, h1, h2⟩
      · left
        intro q hq
        rcases List.mem_cons.1 hq with rfl | hq
        · exact hp
        · exact h q hq
      · right
        refine ⟨p :: l1, q, l2, rfl, ?_, h2⟩
        intro r hr
        rcases List.mem_cons.1 hr with rfl | hr
        · exact hp
        · exact h1 r hr

theorem findColonIdx_no_match (body : Str) (ps : List Str)
    (h : ∀ q ∈ ps, ¬ EntryMatches q body) : findColonIdx body ps = .ok (-1) := by
  have := findColonIdx_skip body ps [] h
  rw [List.append_nil] at this
  rw [this]; rfl

theorem sentenceAt_neg_one (body : Str) : sentenceAt body (-1) = .ok [] := by
  unfold sentenceAt
  rw [if_neg (by simp)]

theorem validateFormat_of_neg_one (ps : List Str) (body : Str)
    (h : findColonIdx body ps = .ok (-1)) :
    validateFormat ps body = .ok (some (errFormat ps)) := by
  unfold validateFormat
  simp only [h, sentenceAt_neg_one]
  rfl

/-- Result of `validateFormat` when the loop leaves in `colonIdx` the value of
`strings.Index(content, ": ")`. -/
theorem validateFormat_of_index (ps : List Str) (body : Str)
    (h : findColonIdx body ps = .ok (index body ": ".toList)) :
    (¬ ": ".toList <:+: body ∧ validateFormat ps body = .ok (some (errFormat ps))) ∨
      ∃ a s : Str, body = a ++ (": ".toList ++ s) ∧ ¬ ": ".toList <:+: a ∧
        index body ": ".toList = (a.length : Int) ∧
        validateFormat ps body = .ok (checkSentence ps s) := by
  by_cases hi : index body ": ".toList = -1
  · left
    refine ⟨(index_eq_neg_one_iff _ _).1 hi, ?_⟩
    rw [hi] at h
    exact validateFormat_of_neg_one ps body h
  · right
    obtain ⟨a, s, hb, ha, hidx⟩ := index_split body hi
    refine ⟨a, s, hb, ha, hidx, ?_⟩
    rw [hidx] at h
    subst hb
    exact validateFormat_of_split ps a s h

/-- A body that passes is split at its first `": "` and what follows is a good sentence. -/
theorem validateFormat_ok_none (ps : List Str) (body : Str)
    (h : validateFormat ps body = .ok none) :
    ∃ a s : Str, body = a ++ (": ".toList ++ s) ∧ ¬ ": ".toList <:+: a ∧ GoodSentence s ∧
      findColonIdx body ps = .ok (a.length : Int) := by
  cases hf : findColonIdx body ps with
  | error m =>
    unfold validateFormat at h
    simp only [hf] at h
    cases h
  | ok i =>
    rcases findColonIdx_ok body ps i hf with hi | hi
    · rw [hi] at hf
      rw [validateFormat_of_neg_one ps body hf] at h
      cases h
    · rw [hi] at hf
      rcases validateFormat_of_index ps body hf with ⟨_, h2⟩ | ⟨a, s, hb, ha, hidx, h2⟩
      · rw [h2] at h; cases h
      · rw [h2, Except.ok.injEq] at h
        refine ⟨a, s, hb, ha, checkSentence_eq_none ps s h, ?_⟩
        rw [hi, hidx]

theorem getLast?_append_of_ne_nil (a s : Str) (hs : s ≠ []) :
    (a ++ s).getLast? = s.getLast? := by
  rcases List.eq_nil_or_concat s with rfl | ⟨t, d, rfl⟩
  · exact absurd rfl hs
  · rw [List.concat_eq_append, ← List.append_assoc]; simp

/-- Two splits of a body at a first `": "` are the same split. -/
theorem first_colon_unique (a s a2 s2 : Str) (h : a ++ (": ".toList ++ s) = a2 ++ (": ".toList ++ s2))
    (ha : ¬ ": ".toList <:+: a) (ha2 : ¬ ": ".toList <:+: a2) : a = a2 ∧ s = s2 := by
  have h1 := index_colon a s ha
  have h2 := index_colon a2 s2 ha2
  rw [h, h2] at h1
  have hlen : a2.length = a.length := by omega
  have := List.append_inj h hlen.symm
  exact ⟨this.1, (List.append_cancel_left this.2)⟩

/-- C17: if `validateFormat` returns no error, whatever the list of prefixes, then the body
holds a `": "`, the text after the first `": "` is not empty and holds no line feed, and the
last character of the body is neither a period nor white space.  Hence a body that ends with a
period or with white space, or that has a line feed after its first `": "`, is rejected. -/
theorem validateFormat_accepts_only (ps : List Str) (body : Str) :
    (validateFormat ps body = .ok none →
      ": ".toList <:+: body ∧
      (∃ a s : Str, body = a ++ ": ".toList ++ s ∧ ¬ ": ".toList <:+: a ∧ s ≠ [] ∧ '\n' ∉ s) ∧
      body.getLast? ≠ some '.' ∧ (∀ c ∈ body.getLast?, isSpace c = false)) ∧
    (body.getLast? = some '.' → validateFormat ps body ≠ .ok none) ∧
    ((∃ c ∈ body.getLast?, isSpace c = true) → validateFormat ps body ≠ .ok none) ∧
    (∀ a s : Str, body = a ++ ": ".toList ++ s → ¬ ": ".toList <:+: a → '\n' ∈ s →
      validateFormat ps body ≠ .ok none) := by
  have key : validateFormat ps body = .ok none →
      ∃ a s : Str, body = a ++ (": ".toList ++ s) ∧ ¬ ": ".toList <:+: a ∧ GoodSentence s ∧
        body.getLast? = s.getLast? := by
    intro h
    obtain ⟨a, s, hb, ha, hs, _⟩ := validateFormat_ok_none ps body h
    refine ⟨a, s, hb, ha, hs, ?_⟩
    rw [hb, ← List.append_assoc]
    exact getLast?_append_of_ne_nil _ s hs.1
  refine ⟨?_, ?_, ?_, ?_⟩
  · intro h
    obtain ⟨a, s, hb, ha, hs, hl⟩ := key h
    refine ⟨⟨a, s, by rw [hb, List.append_assoc]⟩,
      ⟨a, s, by rw [hb, List.append_assoc], ha, hs.1, hs.2.1⟩, ?_, ?_⟩
    · rw [hl]; exact hs.2.2.2
    · rw [hl]; exact hs.2.2.1.2
  · intro hdot h
    obtain ⟨a, s, _, _, hs, hl⟩ := key h
    rw [hl] at hdot
    exact hs.2.2.2 hdot
  · rintro ⟨c, hc, hsp⟩ h
    obtain ⟨a, s, _, _, hs, hl⟩ := key h
    rw [hl] at hc
    rw [hs.2.2.1.2 c hc] at hsp
    cases hsp
  · intro a s hb ha hnl h
    obtain ⟨a2, s2, hb2, ha2, hs, _⟩ := key h
    rw [List.append_assoc] at hb
    obtain ⟨_, rfl⟩ := first_colon_unique a s a2 s2 (hb.symm.trans hb2) ha ha2
    exact hs.2.1 hnl

/-- C19: `validateFormat` always returns (the slice of line 68 never panics); and whenever
the loop leaves a value other than `-1` in `colonIdx`, that value is the position of an
occurrence of `": "` in the body, so `0 ≤ colonIdx` and `colonIdx + 2 ≤ len(content)`, and the
slice `content[colonIdx+2:]` is the text after that occurrence, empty exactly when the body
ends with it. -/
theorem validateFormat_in_bounds (ps : List Str) (body : Str) :
    (∃ e, validateFormat ps body = .ok e) ∧
    ∀ i : Int, findColonIdx body ps = .ok i → i ≠ -1 →
      0 ≤ i ∧ i + 2 ≤ (body.length : Int) ∧
      (body.drop i.toNat).take 2 = ": ".toList ∧
      sentenceAt body i = .ok (body.drop (i.toNat + 2)) ∧
      (body.drop (i.toNat + 2) = [] ↔ i + 2 = (body.length : Int)) := by
  refine ⟨validateFormat_total ps body, ?_⟩
  intro i hf hi
  rcases findColonIdx_ok body ps i hf with h | h
  · exact absurd h hi
  · obtain ⟨a, s, hb, _, hidx⟩ := index_split body (h ▸ hi)
    rw [← h] at hidx
    subst hb
    subst hidx
    have hlen : ((a ++ (": ".toList ++ s)).length : Int) = (a.length : Int) + 2 + s.length := by
      simp; omega
    refine ⟨by omega, by omega, ?_, ?_, ?_⟩
    · simp
    · rw [sentenceAt_split]
      simp
    · simp only [Int.toNat_ofNat, List.drop_eq_nil_iff]
      rw [← Int.ofNat_le]
      constructor <;> intro h2 <;> omega

/-! ## Which message is returned -/

theorem errNamespaced_ne_errFormat (pre : Str) (ps : List Str) :
    errNamespaced pre ≠ errFormat ps := by
  intro h
  have h1 : (errNamespaced pre).take 7 = "entry w".toList := rfl
  have h2 : (errFormat ps).take 7 = "entry m".toList := rfl
  rw [h, h2] at h1
  exact absurd h1 (by decide)

theorem checkSentence_nil (ps : List Str) : checkSentence ps [] = some (errFormat ps) := by
  unfold checkSentence
  rw [if_pos rfl]

/-- The checks of lines 70-82 produce the message of line 71 only for the empty sentence. -/
theorem checkSentence_eq_errFormat (ps ps2 : List Str) (s : Str)
    (h : checkSentence ps s = some (errFormat ps2)) : s = [] := by
  by_contra hs
  have he : (errFormat ps2).take 1 = "e".toList := rfl
  have key : ∀ m : Str, m.take 1 = "s".toList → some m ≠ some (errFormat ps2) := by
    intro m hm hc
    rw [Option.some.injEq] at hc
    rw [hc, he] at hm
    exact absurd hm (by decide)
  unfold checkSentence at h
  rw [if_neg hs] at h
  split_ifs at h
  · exact key errSingleLine rfl h
  · exact key errWhitespace rfl h
  · exact key errPeriod rfl h

/-- A sentence that is not empty and holds no line feed passes, or fails on white space or on
the period. -/
theorem checkSentence_of_line (ps : List Str) (s : Str) (h1 : s ≠ []) (h2 : '\n' ∉ s) :
    checkSentence ps s = none ∨ checkSentence ps s = some errWhitespace ∨
      checkSentence ps s = some errPeriod := by
  unfold checkSentence
  rw [if_neg h1, if_neg (fun hc => h2 ((contains_newline_iff s).1 hc))]
  split_ifs
  · right; left; rfl
  · right; right; rfl
  · left; rfl

/-- The checks of lines 70-82 depend on the list of prefixes only through the text of the
message of line 71. -/
theorem checkSentence_list (ps ps2 : List Str) (s : Str) :
    checkSentence ps s = checkSentence ps2 s ∨
      (checkSentence ps s = some (errFormat ps) ∧ checkSentence ps2 s = some (errFormat ps2)) := by
  by_cases hs : s = []
  · right; subst hs; exact ⟨checkSentence_nil ps, checkSentence_nil ps2⟩
  · left
    unfold checkSentence
    rw [if_neg hs, if_neg hs]

theorem findColonIdx_first_plain (l1 l2 : List Str) (p body : Str)
    (hfirst : ∀ q ∈ l1, ¬ EntryMatches q body) (hplain : p.getLast? ≠ some '/')
    (hp : p ++ ":".toList <+: body) :
    findColonIdx body (l1 ++ p :: l2) = .ok (index body ": ".toList) := by
  rw [findColonIdx_skip _ _ _ hfirst, findColonIdx_plain _ _ _ hplain hp]

/-- A namespaced prefix that is the first entry to match a body of the shape asked for: the
sentence is a non-empty end of the body. -/
theorem validateFormat_of_shape_split (l1 l2 : List Str) (p body : Str)
    (hns : p.getLast? = some '/') (hpre : p <+: body)
    (hfirst : ∀ q ∈ l1, ¬ EntryMatches q body) (hshape : NamespacedShape p body) :
    ∃ a s : Str, body = a ++ (": ".toList ++ s) ∧ ¬ ": ".toList <:+: a ∧ s ≠ [] ∧
      validateFormat (l1 ++ p :: l2) body = .ok (checkSentence (l1 ++ p :: l2) s) := by
  have hm : matchNamespaced p body = true := (matchNamespaced_iff _ _).2 hshape
  have hf : findColonIdx body (l1 ++ p :: l2) = .ok (index body ": ".toList) := by
    rw [findColonIdx_skip _ _ _ hfirst, findColonIdx_namespaced _ _ _ hns hpre, if_pos hm]
  obtain ⟨w, r, hb, _, hr, _⟩ := hshape
  rcases validateFormat_of_index _ body hf with ⟨hno, _⟩ | ⟨a, s, hb2, ha, hidx, hv⟩
  · exact absurd ⟨p ++ w, r, hb.symm⟩ hno
  · refine ⟨a, s, hb2, ha, ?_, hv⟩
    rintro rfl
    have hle : a.length ≤ (p ++ w).length := by
      apply index_le_of_occurrence ": ".toList (p ++ w) r
      rw [← List.append_assoc, ← hb]
      exact hidx
    have hlen := congrArg List.length (hb2.symm.trans hb)
    have hr2 : 0 < r.length := List.length_pos.2 hr
    simp only [List.length_append, List.append_nil] at hlen hle
    omega

theorem findColonIdx_of_matches (body p : Str) (rest : List Str) (hp : EntryMatches p body) :
    findColonIdx body (p :: rest) = findColonIdx body [p] := by
  rcases hp with ⟨hns, hpre⟩ | ⟨hplain, hpre⟩
  · rw [findColonIdx_namespaced _ _ _ hns hpre, findColonIdx_namespaced _ _ _ hns hpre]
  · rw [findColonIdx_plain _ _ _ hplain hpre, findColonIdx_plain _ _ _ hplain hpre]

/-- C11: `validateFormat` fails with the message
`entry must follow format '<prefix>: <sentence>' where prefix is one of: [...]` if and only if
either no list entry matches the body, or the first entry that matches is a plain prefix and
the body holds no `": "` or ends right after its first `": "`.  With an empty list of prefixes
every body fails with this message. -/
theorem validateFormat_generic_error_iff (ps : List Str) (body : Str) :
    (validateFormat ps body =
        .ok (some ("entry must follow format '<prefix>: <sentence>' where prefix is one of: ".toList
          ++ ("[".toList ++ join ps " ".toList ++ "]".toList))) ↔
      (∀ q ∈ ps, ¬ EntryMatches q body) ∨
      ∃ (l1 : List Str) (p : Str) (l2 : List Str), ps = l1 ++ p :: l2 ∧
        (∀ q ∈ l1, ¬ EntryMatches q body) ∧
        p.getLast? ≠ some '/' ∧ p ++ ":".toList <+: body ∧
        (¬ ": ".toList <:+: body ∨
          ∃ a : Str, body = a ++ ": ".toList ∧ ¬ ": ".toList <:+: a)) ∧
    (ps = [] → validateFormat ps body =
      .ok (some "entry must follow format '<prefix>: <sentence>' where prefix is one of: []".toList)) := by
  constructor
  · show validateFormat ps body = .ok (some (errFormat ps)) ↔ _
    constructor
    · intro h
      rcases first_match_cases ps body with hno | ⟨l1, p, l2, hps, hfirst, hp⟩
      · exact Or.inl hno
      · right
        subst hps
        rcases hp with ⟨hns, hpre⟩ | ⟨hplain, hpre⟩
        · exfalso
          by_cases hshape : NamespacedShape p body
          · obtain ⟨a, s, _, _, hs, hv⟩ :=
              validateFormat_of_shape_split l1 l2 p body hns hpre hfirst hshape
            rw [hv, Except.ok.injEq] at h
            exact hs (checkSentence_eq_errFormat _ _ s h)
          · rw [validateFormat_of_not_shape l1 l2 p body hns hpre hfirst hshape,
              Except.ok.injEq, Option.some.injEq] at h
            exact errNamespaced_ne_errFormat _ _ h
        · refine ⟨l1, p, l2, rfl, hfirst, hplain, hpre, ?_⟩
          have hf := findColonIdx_first_plain l1 l2 p body hfirst hplain hpre
          rcases validateFormat_of_index _ body hf with ⟨hno, _⟩ | ⟨a, s, hb, ha, _, hv⟩
          · exact Or.inl hno
          · right
            rw [hv, Except.ok.injEq] at h
            have hs := checkSentence_eq_errFormat _ _ s h
            subst hs
            exact ⟨a, hb, ha⟩
    · rintro (hno | ⟨l1, p, l2, hps, hfirst, hplain, hpre, hcase⟩)
      · exact validateFormat_of_neg_one ps body (findColonIdx_no_match body ps hno)
      · subst hps
        have hf := findColonIdx_first_plain l1 l2 p body hfirst hplain hpre
        rcases hcase with hno | ⟨a, hb, ha⟩
        · rw [(index_eq_neg_one_iff _ _).2 hno] at hf
          exact validateFormat_of_neg_one _ body hf
        · have hb2 : body = a ++ (": ".toList ++ []) := by rw [hb]; rfl
          subst hb2
          rw [index_colon a [] ha] at hf
          rw [validateFormat_of_split _ a [] hf, checkSentence_nil]
  · rintro rfl
    rfl

/-- Witness for C11: with `fix` allowed, the body `fix: ` ends right after its first `": "`. -/
theorem validateFormat_generic_error_iff_witness :
    validateFormat ["fix".toList] "fix: ".toList =
      .ok (some "entry must follow format '<prefix>: <sentence>' where prefix is one of: [fix]".toList) :=
  (validateFormat_generic_error_iff ["fix".toList] "fix: ".toList).1.2
    (Or.inr ⟨[], "fix".toList, [], rfl, by decide, by decide, by decide,
      Or.inr ⟨"fix".toList, rfl, by decide⟩⟩)

/-- C12: prefixes are tried in list order and the first match decides.  When no entry of
`l1` matches the body and `p` matches it, the loop over `l1 ++ p :: l2` leaves the same value
as the loop over `[p]`; `validateFormat` with the whole list returns no error exactly when it
does with `[p]`; and the two results are equal, unless both are the message of line 71, each
with its own list.  The entries of `l2` play no part. -/
theorem validateFormat_first_match_wins (l1 l2 : List Str) (p body : Str)
    (hfirst : ∀ q ∈ l1, ¬ EntryMatches q body) (hp : EntryMatches p body) :
    findColonIdx body (l1 ++ p :: l2) = findColonIdx body [p] ∧
    (validateFormat (l1 ++ p :: l2) body = .ok none ↔ validateFormat [p] body = .ok none) ∧
    (validateFormat (l1 ++ p :: l2) body = validateFormat [p] body ∨
      (validateFormat (l1 ++ p :: l2) body =
          .ok (some ("entry must follow format '<prefix>: <sentence>' where prefix is one of: ".toList
            ++ ("[".toList ++ join (l1 ++ p :: l2) " ".toList ++ "]".toList))) ∧
        validateFormat [p] body =
          .ok (some ("entry must follow format '<prefix>: <sentence>' where prefix is one of: ".toList
            ++ ("[".toList ++ join [p] " ".toList ++ "]".toList))))) := by
  have hf : findColonIdx body (l1 ++ p :: l2) = findColonIdx body [p] := by
    rw [findColonIdx_skip _ _ _ hfirst, findColonIdx_of_matches body p l2 hp]
  have hcases : validateFormat (l1 ++ p :: l2) body = validateFormat [p] body ∨
      (validateFormat (l1 ++ p :: l2) body = .ok (some (errFormat (l1 ++ p :: l2))) ∧
        validateFormat [p] body = .ok (some (errFormat [p]))) := by
    unfold validateFormat
    rw [hf]
    cases findColonIdx body [p] with
    | error m => left; rfl
    | ok i =>
      dsimp only
      cases sentenceAt body i with
      | error e => left; rfl
      | ok s =>
        dsimp only
        rcases checkSentence_list (l1 ++ p :: l2) [p] s with h | ⟨h1, h2⟩
        · left; rw [h]
        · right; rw [h1, h2]; exact ⟨rfl, rfl⟩
  refine ⟨hf, ?_, hcases⟩
  rcases hcases with h | ⟨h1, h2⟩
  · rw [h]
  · rw [h1, h2]
    constructor <;> intro hc <;> cases hc

/-- Witness for C12: `deps/` is listed first and rejects the body `deps/a-b: text`; the later
entry `deps/a-b` would accept it on its own and is not consulted. -/
theorem validateFormat_first_match_wins_witness :
    validateFormat ["deps/".toList, "deps/a-b".toList] "deps/a-b: text".toList =
        validateFormat ["deps/".toList] "deps/a-b: text".toList ∧
      validateFormat ["deps/".toList] "deps/a-b: text".toList =
        .ok (some "entry with prefix 'deps/' must have format 'deps/<word>: <sentence>'".toList) ∧
      validateFormat ["deps/a-b".toList] "deps/a-b: text".toList = .ok none :=
  ⟨((validateFormat_first_match_wins [] ["deps/a-b".toList] "deps/".toList
      "deps/a-b: text".toList (by decide) (by decide)).2.2).resolve_right (by decide),
    by decide, by decide⟩

theorem errNamespaced_ne_errSingleLine (pre : Str) : errNamespaced pre ≠ errSingleLine := by
  intro h
  have h1 : (errNamespaced pre).take 1 = "e".toList := rfl
  rw [h] at h1
  exact absurd h1 (by decide)

theorem not_mem_newline_of_shape (p body : Str) (hp : '\n' ∉ p)
    (hshape : NamespacedShape p body) : '\n' ∉ body := by
  obtain ⟨w, r, rfl, hw, _, hr⟩ := hshape
  intro hc
  simp only [List.mem_append] at hc
  rcases hc with ((hc | hc) | hc) | hc
  · exact hp hc
  · have := hw.2 _ hc
    simp [isWordChar] at this
  · simp [String.toList] at hc
  · exact hr hc

/-- C18: when no entry of the list holds a line feed and the first entry that matches the
body is a namespaced prefix `p`, the result of `validateFormat` is no error, the message on the
namespaced shape, the message on white space or the message on the period; it is never
`sentence must be single line` nor the message of line 71; and a body that holds a line feed is
rejected with the message on the namespaced shape. -/
theorem validateFormat_namespaced_results (l1 l2 : List Str) (p body : Str)
    (hline : ∀ q ∈ l1 ++ p :: l2, '\n' ∉ q)
    (hns : p.getLast? = some '/') (hpre : p <+: body)
    (hfirst : ∀ q ∈ l1, ¬ EntryMatches q body) :
    (validateFormat (l1 ++ p :: l2) body = .ok none ∨
      validateFormat (l1 ++ p :: l2) body =
        .ok (some ("entry with prefix '".toList ++ p ++ "' must have format '".toList ++ p ++
          "<word>: <sentence>'".toList)) ∨
      validateFormat (l1 ++ p :: l2) body =
        .ok (some "sentence must not have leading or trailing whitespace".toList) ∨
      validateFormat (l1 ++ p :: l2) body =
        .ok (some "sentence must not end with a period".toList)) ∧
    validateFormat (l1 ++ p :: l2) body ≠ .ok (some "sentence must be single line".toList) ∧
    validateFormat (l1 ++ p :: l2) body ≠
      .ok (some ("entry must follow format '<prefix>: <sentence>' where prefix is one of: ".toList
        ++ ("[".toList ++ join (l1 ++ p :: l2) " ".toList ++ "]".toList))) ∧
    ('\n' ∈ body →
      validateFormat (l1 ++ p :: l2) body =
        .ok (some ("entry with prefix '".toList ++ p ++ "' must have format '".toList ++ p ++
          "<word>: <sentence>'".toList))) := by
  have hp : '\n' ∉ p := hline p (by simp)
  by_cases hshape : NamespacedShape p body
  · have hbody := not_mem_newline_of_shape p body hp hshape
    obtain ⟨a, s, hb, _, hs, hv⟩ :=
      validateFormat_of_shape_split l1 l2 p body hns hpre hfirst hshape
    have hsl : '\n' ∉ s := by
      intro hc
      apply hbody
      rw [hb]
      simp [hc]
    rw [hv]
    refine ⟨?_, ?_, ?_, fun hc => absurd hc hbody⟩
    · rcases checkSentence_of_line (l1 ++ p :: l2) s hs hsl with h | h | h
      · left; rw [h]
      · right; right; left; rw [h]; rfl
      · right; right; right; rw [h]; rfl
    · rcases checkSentence_of_line (l1 ++ p :: l2) s hs hsl with h | h | h <;> rw [h] <;> decide
    · intro hc
      rw [Except.ok.injEq] at hc
      exact hs (checkSentence_eq_errFormat _ (l1 ++ p :: l2) s hc)
  · have hv := validateFormat_of_not_shape l1 l2 p body hns hpre hfirst hshape
    rw [hv]
    refine ⟨Or.inr (Or.inl rfl), ?_, ?_, fun _ => rfl⟩
    · intro hc
      rw [Except.ok.injEq, Option.some.injEq] at hc
      exact errNamespaced_ne_errSingleLine p hc
    · intro hc
      rw [Except.ok.injEq, Option.some.injEq] at hc
      exact errNamespaced_ne_errFormat p _ hc

/-- Witness for C18: with `deps/` allowed, a body with a line feed in its sentence gets the
message on the namespaced shape. -/
theorem validateFormat_namespaced_results_witness :
    validateFormat ["fix".toList, "deps/".toList] "deps/core: first\nsecond".toList =
      .ok (some "entry with prefix 'deps/' must have format 'deps/<word>: <sentence>'".toList) :=
  (validateFormat_namespaced_results ["fix".toList] [] "deps/".toList
    "deps/core: first\nsecond".toList (by decide) (by decide) (by decide) (by decide)).2.2.2
    (by decide)

/-! ## Runs that end before the loop -/

/-- C13: when the file is read and the note parser yields no note, `main` ends by
`log.Fatal` with `Error validating changelog: no changelog entry found`, whatever the allowed
types and prefixes are; this is neither the success text nor a list of entry errors. -/
theorem main_no_entry (T P : List Str) (readFile : Str → ReadResult)
    (notesFromEntry : Str → List Note) (arg0 path content : Str) (more : List Str)
    (hread : readFile path = .data content) (hnotes : notesFromEntry content = []) :
    main T P readFile notesFromEntry (arg0 :: path :: more) =
        .fatal "Error validating changelog: no changelog entry found".toList ∧
      main T P readFile notesFromEntry (arg0 :: path :: more) ≠
        .done "Changelog entry is valid\n".toList ∧
      ∀ errors : List Str, main T P readFile notesFromEntry (arg0 :: path :: more) ≠
        .fatal ("Error validating changelog:\n  - ".toList ++ join errors "\n  - ".toList) := by
  have h : main T P readFile notesFromEntry (arg0 :: path :: more) =
      .fatal "Error validating changelog: no changelog entry found".toList := by
    unfold main
    simp only [hread]
    rw [if_pos (by rw [hnotes]; rfl)]
  rw [h]
  refine ⟨rfl, fun hc => Outcome.noConfusion hc, ?_⟩
  intro errors hc
  rw [Outcome.fatal.injEq] at hc
  have := congrArg (List.take 28) hc
  have h2 : List.take 28 ("Error validating changelog:\n  - ".toList ++ join errors "\n  - ".toList)
      = "Error validating changelog:\n".toList := rfl
  rw [h2] at this
  exact absurd this (by decide)

/-- Witness for C13: a readable file in which the parser finds no note. -/
theorem main_no_entry_witness :
    main ["bug".toList] ["fix".toList] (fun _ => .data "text".toList) (fun _ => [])
        ["cmd".toList, "f".toList] =
      .fatal "Error validating changelog: no changelog entry found".toList :=
  (main_no_entry ["bug".toList] ["fix".toList] (fun _ => .data "text".toList) (fun _ => [])
    "cmd".toList "f".toList "text".toList [] rfl rfl).1

/-- C14: when the file named on the command line does not exist, `main` prints
`No changelog entry file found at: <path> (this may be expected)` and returns, whatever the
allowed types, the allowed prefixes and the note parser are; the whole process does the same
once its two configuration files are loaded. -/
theorem main_missing_file (T P : List Str) (readFile : Str → ReadResult)
    (notesFromEntry : Str → List Note) (arg0 path text : Str) (more : List Str)
    (hread : readFile path = .failure true text) :
    main T P readFile notesFromEntry (arg0 :: path :: more) =
        .done ("No changelog entry file found at: ".toList ++ path ++
          " (this may be expected)\n".toList) ∧
      (loadLines readFile "../allowed-types.txt".toList = .ok T →
        loadLines readFile "../allowed-prefixes.txt".toList = .ok P →
        program readFile notesFromEntry (arg0 :: path :: more) =
          .done ("No changelog entry file found at: ".toList ++ path ++
            " (this may be expected)\n".toList)) := by
  have h : main T P readFile notesFromEntry (arg0 :: path :: more) =
      .done ("No changelog entry file found at: ".toList ++ path ++
        " (this may be expected)\n".toList) := by
    unfold main
    simp only [hread]
    rfl
  refine ⟨h, ?_⟩
  intro hT hP
  unfold program
  simp only [hT, hP]
  exact h

/-- Witness for C14: the file `f` does not exist; types, prefixes and parser are arbitrary. -/
theorem main_missing_file_witness :
    main [] ["fix".toList] (fun _ => .failure true "no such file".toList)
        (fun _ => [⟨"bug".toList, "bad".toList⟩]) ["cmd".toList, "f".toList] =
      .done "No changelog entry file found at: f (this may be expected)\n".toList :=
  (main_missing_file [] ["fix".toList] (fun _ => .failure true "no such file".toList)
    (fun _ => [⟨"bug".toList, "bad".toList⟩]) "cmd".toList "f".toList "no such file".toList []
    rfl).1

/-! ## `loadLines` -/

theorem splitLinesAux_eq (s cur : Str) :
    splitLinesAux s cur = List.splitOnP.go (fun c => c == '\n') s cur := by
  induction s generalizing cur with
  | nil => rfl
  | cons c cs ih =>
    unfold splitLinesAux List.splitOnP.go
    by_cases h : c = '\n'
    · rw [if_pos h, if_pos (by simp [h]), ih]
    · rw [if_neg h, if_neg (by simp [h]), ih]

theorem splitLines_eq (s : Str) : splitLines s = s.splitOn '\n' :=
  splitLinesAux_eq s []

/-- A character of a piece comes from the piece being read or, if it is no line feed, from
the text still to split. -/
theorem mem_splitLinesAux (s cur piece : Str) (c : Char)
    (hp : piece ∈ splitLinesAux s cur) (hc : c ∈ piece) : c ∈ cur ∨ (c ∈ s ∧ c ≠ '\n') := by
  induction s generalizing cur with
  | nil =>
    simp only [splitLinesAux, List.mem_singleton] at hp
    subst hp
    left; simpa using hc
  | cons d ds ih =>
    unfold splitLinesAux at hp
    by_cases h : d = '\n'
    · rw [if_pos h] at hp
      rcases List.mem_cons.1 hp with rfl | hp
      · left; simpa using hc
      · rcases ih [] hp with h1 | ⟨h1, h2⟩
        · cases h1
        · right; exact ⟨List.mem_cons_of_mem _ h1, h2⟩
    · rw [if_neg h] at hp
      rcases ih (d :: cur) hp with h1 | ⟨h1, h2⟩
      · rcases List.mem_cons.1 h1 with rfl | h1
        · right; exact ⟨List.mem_cons_self _ _, h⟩
        · left; exact h1
      · right; exact ⟨List.mem_cons_of_mem _ h1, h2⟩

theorem loadLinesLoop_eq (pieces lines : List Str) :
    loadLinesLoop pieces lines =
      lines ++ (pieces.map trimSpace).filter (fun l => decide (l ≠ [])) := by
  induction pieces generalizing lines with
  | nil => simp [loadLinesLoop]
  | cons piece rest ih =>
    unfold loadLinesLoop
    by_cases h : trimSpace piece = []
    · simp only [h, ne_eq, not_true_eq_false, if_false, List.map_cons, decide_False,
        Bool.false_eq_true, not_false_eq_true, List.filter_cons_of_neg]
      exact ih lines
    · simp only [ne_eq, h, not_false_eq_true, if_true, List.map_cons, decide_True,
        List.filter_cons_of_pos]
      rw [ih]; simp

theorem trimSpace_sublist (s : Str) : (trimSpace s).Sublist s :=
  ((List.rdropWhile_prefix isSpace (s.dropWhile isSpace)).sublist).trans
    (List.dropWhile_sublist isSpace)

theorem noOuterSpace_trimSpace (s : Str) : NoOuterSpace (trimSpace s) := by
  have ht : trimSpace s = (s.dropWhile isSpace).rdropWhile isSpace := rfl
  constructor
  · intro c hc
    rw [Option.mem_def] at hc
    have hne : trimSpace s ≠ [] := by
      intro h; rw [h] at hc; cases hc
    obtain ⟨u, hu⟩ := List.rdropWhile_prefix isSpace (s.dropWhile isSpace)
    rw [← ht] at hu
    have hd : s.dropWhile isSpace ≠ [] := by
      intro h
      rw [h] at hu
      exact hne (List.append_eq_nil.1 hu).1
    have hh := List.head_dropWhile_not isSpace s hd
    have hh2 : (s.dropWhile isSpace).head? = some c := by
      rw [← hu, List.head?_append_of_ne_nil _ hne]; exact hc
    rw [List.head?_eq_head hd, Option.some.injEq] at hh2
    rw [← hh2]; exact hh
  · intro c hc
    rw [Option.mem_def] at hc
    have hne : trimSpace s ≠ [] := by
      intro h; rw [h] at hc; cases hc
    rw [List.getLast?_eq_getLast _ hne, Option.some.injEq] at hc
    have := List.rdropWhile_last_not isSpace (s.dropWhile isSpace) (by rw [← ht]; exact hne)
    rw [← hc]
    simpa [ht] using this

/-- C15: when the file is read, `loadLines` returns the content split at each line feed, with
every piece trimmed and the pieces that are then empty left out, in order.  Hence every line
returned is not empty, has no white space at either end (so no final carriage return) and
holds no line feed; and a content made of white space only gives the empty list. -/
theorem loadLines_eq (readFile : Str → ReadResult) (path content : Str)
    (hread : readFile path = .data content) :
    loadLines readFile path =
        .ok (((content.splitOn '\n').map trimSpace).filter (fun l => decide (l ≠ []))) ∧
      (∀ lines : List Str, loadLines readFile path = .ok lines → ∀ line ∈ lines,
        line ≠ [] ∧ NoOuterSpace line ∧ line.getLast? ≠ some '\r' ∧ '\n' ∉ line) ∧
      ((∀ c ∈ content, isSpace c = true) → loadLines readFile path = .ok []) := by
  have h : loadLines readFile path =
      .ok (((content.splitOn '\n').map trimSpace).filter (fun l => decide (l ≠ []))) := by
    unfold loadLines
    simp only [hread]
    rw [loadLinesLoop_eq, splitLines_eq, List.nil_append]
  refine ⟨h, ?_, ?_⟩
  · intro lines hl line hline
    rw [h, Except.ok.injEq] at hl
    subst hl
    rw [List.mem_filter, List.mem_map] at hline
    obtain ⟨⟨piece, hpiece, rfl⟩, hne⟩ := hline
    have hne2 : trimSpace piece ≠ [] := by simpa using hne
    have hsp := noOuterSpace_trimSpace piece
    refine ⟨hne2, hsp, ?_, ?_⟩
    · intro hc
      have := hsp.2 '\r' hc
      exact absurd this (by decide)
    · intro hc
      rw [← splitLines_eq] at hpiece
      rcases mem_splitLinesAux content [] piece '\n' hpiece ((trimSpace_sublist piece).mem hc)
        with h1 | ⟨_, h2⟩
      · cases h1
      · exact h2 rfl
  · intro hall
    rw [h]
    congr 1
    rw [List.filter_eq_nil_iff]
    intro line hline
    rw [List.mem_map] at hline
    obtain ⟨piece, hpiece, rfl⟩ := hline
    rw [← splitLines_eq] at hpiece
    have hp : piece.dropWhile isSpace = [] := by
      rw [List.dropWhile_eq_nil_iff]
      intro c hc
      rcases mem_splitLinesAux content [] piece c hpiece hc with h1 | ⟨h1, _⟩
      · cases h1
      · exact hall c h1
    have : trimSpace piece = [] := by
      unfold trimSpace
      rw [hp]; rfl
    simp [this]

/-- Witness for C15: carriage returns and blank lines are dropped. -/
theorem loadLines_eq_witness :
    loadLines (fun _ => .data " bug \r\n\n\t\nnote\n".toList) "f".toList =
      .ok ["bug".toList, "note".toList] :=
  ((loadLines_eq (fun _ => .data " bug \r\n\n\t\nnote\n".toList) "f".toList
    " bug \r\n\n\t\nnote\n".toList rfl).1).trans (by decide)

/-! ## One error per entry -/

theorem errUnknownType_eq (T : List Str) (i : Nat) (t : Str) :
    errUnknownType T i t =
      "Entry ".toList ++ fmtInt (i + 1) ++ ": ".toList ++
        ("Unknown changelog type '".toList ++ t ++
          "', please use only the configured changelog entry types ".toList ++
          ("[".toList ++ join T " ".toList ++ "]".toList)) := by
  unfold errUnknownType fmtStrings
  have h : ": Unknown changelog type '".toList = ": ".toList ++ "Unknown changelog type '".toList :=
    rfl
  rw [h]
  simp only [List.append_assoc]

/-- The errors of the notes from index `i` on, as pairs of an index and a text: the indices
increase strictly, each pair is the one error of the note at its index, and there is one pair
for each note with a type that is not allowed or a body that fails. -/
theorem entryErrors_labels (T P : List Str) (notes : List Note) (i : Nat) :
    ∃ labels : List (Nat × Str),
      entryErrors T P i notes =
        labels.map (fun l => "Entry ".toList ++ fmtInt (l.1 + 1) ++ ": ".toList ++ l.2) ∧
      (labels.map Prod.fst).Pairwise (fun a b => a < b) ∧
      (∀ l ∈ labels, i ≤ l.1 ∧ ∃ note : Note, notes[l.1 - i]? = some note ∧
        ((note.type ∉ T ∧ l.2 = "Unknown changelog type '".toList ++ note.type ++
            "', please use only the configured changelog entry types ".toList ++
            ("[".toList ++ join T " ".toList ++ "]".toList)) ∨
          (note.type ∈ T ∧ validateFormat P note.body = .ok (some l.2)))) ∧
      labels.length = (notes.filter (fun n =>
        decide (n.type ∉ T ∨ validateFormat P n.body ≠ .ok none))).length := by
  induction notes generalizing i with
  | nil => exact ⟨[], rfl, List.Pairwise.nil, fun l hl => absurd hl (List.not_mem_nil l), rfl⟩
  | cons n rest ih =>
    obtain ⟨labels, h1, h2, h3, h4⟩ := ih (i + 1)
    have hshift : ∀ l ∈ labels, i ≤ l.1 ∧ ∃ note : Note, (n :: rest)[l.1 - i]? = some note ∧
        ((note.type ∉ T ∧ l.2 = "Unknown changelog type '".toList ++ note.type ++
            "', please use only the configured changelog entry types ".toList ++
            ("[".toList ++ join T " ".toList ++ "]".toList)) ∨
          (note.type ∈ T ∧ validateFormat P note.body = .ok (some l.2))) := by
      intro l hl
      obtain ⟨hle, note, hn, hcase⟩ := h3 l hl
      refine ⟨by omega, note, ?_, hcase⟩
      have : l.1 - i = (l.1 - (i + 1)) + 1 := by omega
      rw [this, List.getElem?_cons_succ]
      exact hn
    have hcons : ∀ m : Str, entryError T P i n = some (errEntry i m) →
        ((n.type ∉ T ∧ m = "Unknown changelog type '".toList ++ n.type ++
            "', please use only the configured changelog entry types ".toList ++
            ("[".toList ++ join T " ".toList ++ "]".toList)) ∨
          (n.type ∈ T ∧ validateFormat P n.body = .ok (some m))) →
        ∃ labels2 : List (Nat × Str),
          entryErrors T P i (n :: rest) =
            labels2.map (fun l => "Entry ".toList ++ fmtInt (l.1 + 1) ++ ": ".toList ++ l.2) ∧
          (labels2.map Prod.fst).Pairwise (fun a b => a < b) ∧
          (∀ l ∈ labels2, i ≤ l.1 ∧ ∃ note : Note, (n :: rest)[l.1 - i]? = some note ∧
            ((note.type ∉ T ∧ l.2 = "Unknown changelog type '".toList ++ note.type ++
                "', please use only the configured changelog entry types ".toList ++
                ("[".toList ++ join T " ".toList ++ "]".toList)) ∨
              (note.type ∈ T ∧ validateFormat P note.body = .ok (some l.2)))) ∧
          labels2.length = labels.length + 1 := by
      intro m hm hcase
      refine ⟨(i, m) :: labels, ?_, ?_, ?_, rfl⟩
      · rw [entryErrors, hm, h1]; rfl
      · rw [List.map_cons, List.pairwise_cons]
        refine ⟨?_, h2⟩
        intro b hb
        obtain ⟨l, hl, rfl⟩ := List.mem_map.1 hb
        have := (h3 l hl).1
        show i < l.1
        omega
      · intro l hl
        rcases List.mem_cons.1 hl with rfl | hl
        · exact ⟨le_refl _, n, by simp, hcase⟩
        · exact hshift l hl
    by_cases ht : n.type ∈ T
    · obtain ⟨e, he⟩ := validateFormat_total P n.body
      cases e with
      | none =>
        refine ⟨labels, ?_, h2, hshift, ?_⟩
        · rw [entryErrors, (entryError_eq_none_iff T P i n).2 ⟨ht, he⟩, h1]; rfl
        · rw [h4, List.filter_cons_of_neg]
          simp [ht, he]
      | some m =>
        obtain ⟨labels2, g1, g2, g3, g4⟩ :=
          hcons m (entryError_format T P i n m ht he) (Or.inr ⟨ht, he⟩)
        refine ⟨labels2, g1, g2, g3, ?_⟩
        rw [g4, h4, List.filter_cons_of_pos]
        · rfl
        · simp [he]
    · obtain ⟨labels2, g1, g2, g3, g4⟩ :=
        hcons _ ((entryError_unknown T P i n ht).trans
          (congrArg some (errUnknownType_eq T i n.type))) (Or.inl ⟨ht, rfl⟩)
      refine ⟨labels2, g1, g2, g3, ?_⟩
      rw [g4, h4, List.filter_cons_of_pos]
      · rfl
      · simp [ht]

/-- C16: the loop of `main` ends with a list of errors in which each error is
`Entry (k+1): ` followed by a text, for indices `k` that increase strictly (so each note gives
at most one error); the text of a note whose type is not allowed is the message on the unknown
type and nothing else, and the text of a note whose type is allowed is the error of
`validateFormat` on its body.  The number of errors is the number of notes with a type that is
not allowed or a body on which `validateFormat` fails, and is at most the number of notes. -/
theorem checkNotes_one_error_per_entry (T P : List Str) (notes : List Note) :
    ∃ labels : List (Nat × Str),
      checkNotes T P 0 notes [] =
        .ok (labels.map (fun l => "Entry ".toList ++ fmtInt (l.1 + 1) ++ ": ".toList ++ l.2)) ∧
      (labels.map Prod.fst).Pairwise (fun a b => a < b) ∧
      (∀ l ∈ labels, ∃ note : Note, notes[l.1]? = some note ∧
        ((note.type ∉ T ∧ l.2 = "Unknown changelog type '".toList ++ note.type ++
            "', please use only the configured changelog entry types ".toList ++
            ("[".toList ++ join T " ".toList ++ "]".toList)) ∨
          (note.type ∈ T ∧ validateFormat P note.body = .ok (some l.2)))) ∧
      labels.length = (notes.filter (fun n =>
        decide (n.type ∉ T ∨ validateFormat P n.body ≠ .ok none))).length ∧
      labels.length ≤ notes.length := by
  obtain ⟨labels, h1, h2, h3, h4⟩ := entryErrors_labels T P notes 0
  refine ⟨labels, ?_, h2, ?_, h4, ?_⟩
  · rw [checkNotes_eq, List.nil_append, h1]
  · intro l hl
    obtain ⟨_, note, hn, hcase⟩ := h3 l hl
    exact ⟨note, by simpa using hn, hcase⟩
  · rw [h4]
    exact List.length_filter_le _ _

/-- Witness for C17: `fix: done` passes and does not end with a period; `fix: done.` ends
with a period and is rejected. -/
theorem validateFormat_accepts_only_witness :
    "fix: done".toList.getLast? ≠ some '.' ∧
      validateFormat ["fix".toList] "fix: done.".toList ≠ .ok none :=
  ⟨((validateFormat_accepts_only ["fix".toList] "fix: done".toList).1 (by decide)).2.2.1,
    (validateFormat_accepts_only ["fix".toList] "fix: done.".toList).2.1 (by decide)⟩

/-- Witness for C19: for `fix: done` the loop leaves 3 in `colonIdx`, and the slice is
`done`. -/
theorem validateFormat_in_bounds_witness :
    sentenceAt "fix: done".toList 3 = .ok "done".toList :=
  ((validateFormat_in_bounds ["fix".toList] "fix: done".toList).2 3 (by decide)
    (by decide)).2.2.2.1

end ChangelogCheck
